import Mathlib

/-!
# Verification of the honeybee-designbuilder dsbXML writer

This file gives a shallow embedding of `honeybee_designbuilder/writer.py`
(the dsbXML document writer) and settles a list of claims about it.

Modelling conventions:

* Python `xml.etree.ElementTree` elements are modelled by the inductive
  `XElem` (tag, ordered attribute list, optional text, ordered children).
  `ET.SubElement(parent, tag, attrs)` becomes appending a child; the rare
  post-hoc `elem.set(key, value)` mutations are modelled as functional
  attribute updates on the already-built tree.
* The external geometry/model library (honeybee / ladybug-geometry) is the
  black box described by the spec; its operations are fields of the `Ext`
  structure (oracles).  Numeric values that the writer only ever renders
  with `str(...)` (areas, volumes, coordinates, azimuths) are carried as
  already-rendered strings.
* The process-global `HANDLE_COUNTER` becomes an explicit `Nat` threaded
  through every writer function; Python exceptions become `Except String`.
* `str(n)` on the counter / integer handles becomes `toString (n : Nat)`.
-/

namespace DsbXml

/-- `DESIGNBUILDER_VERSION` from writer.py line 14. -/
def DESIGNBUILDER_VERSION : String := "2025.1.0.085"

/-- The module-level initial value of `HANDLE_COUNTER` (writer.py line 15). -/
def HANDLE_COUNTER_init : Nat := 1

/-! ## Small dictionary helpers (Python `dict` with insertion order) -/

/-- Lookup in an insertion-ordered string dictionary (`d[k]` / `d.get(k)`). -/
def dictGet? : List (String × String) → String → Option String
  | [], _ => none
  | (k, v) :: rest, key => if k = key then some v else dictGet? rest key

/-- Update in an insertion-ordered string dictionary (`d[k] = v`, `elem.set`):
replaces an existing key in place, otherwise appends. -/
def dictSet : List (String × String) → String → String → List (String × String)
  | [], key, val => [(key, val)]
  | (k, v) :: rest, key, val =>
    if k = key then (key, val) :: rest else (k, v) :: dictSet rest key val

/-! ## The XML element tree -/

/-- An `xml.etree.ElementTree.Element`: tag, ordered attributes, text, children. -/
inductive XElem : Type where
  | mk (tag : String) (attrs : List (String × String))
       (text : Option String) (children : List XElem)

def XElem.tag : XElem → String
  | .mk t _ _ _ => t

def XElem.attrs : XElem → List (String × String)
  | .mk _ a _ _ => a

def XElem.text : XElem → Option String
  | .mk _ _ tx _ => tx

def XElem.children : XElem → List XElem
  | .mk _ _ _ cs => cs

/-- `elem.get(key)`. -/
def XElem.get? (e : XElem) (key : String) : Option String :=
  dictGet? e.attrs key

/-- `elem.set(key, value)`. -/
def XElem.set (e : XElem) (key val : String) : XElem :=
  .mk e.tag (dictSet e.attrs key val) e.text e.children

/-- `elem.find(tag)`: first child with the given tag. -/
def XElem.find? (e : XElem) (t : String) : Option XElem :=
  e.children.find? (fun c => c.tag = t)

/-- `len(elem.findall(tag))`. -/
def XElem.countTag (e : XElem) (t : String) : Nat :=
  (e.children.filter (fun c => c.tag = t)).length

/-- Update the first child with the given tag (models mutating the element
returned by `elem.find(tag)`). -/
def updFirstTag (t : String) (g : XElem → XElem) : List XElem → List XElem
  | [] => []
  | x :: xs => if x.tag = t then g x :: xs else x :: updFirstTag t g xs

def XElem.updChild (e : XElem) (t : String) (g : XElem → XElem) : XElem :=
  .mk e.tag e.attrs e.text (updFirstTag t g e.children)

/-- Map over all children (models `for child in elem: mutate child`). -/
def XElem.mapChildren (e : XElem) (g : XElem → XElem) : XElem :=
  .mk e.tag e.attrs e.text (e.children.map g)

/-! ## The honeybee data model (as read by the writer)

Only the attributes the writer actually reads are modelled.  Values that the
writer merely renders with `str(...)` (coordinates, areas, volumes, azimuth,
altitude) are carried as already-rendered strings, since the numeric
computations live in the external geometry library. -/

/-- A 3D point; the writer renders it as `'{x}; {y}; {z}'`. -/
structure Pt3 where
  x : String
  y : String
  z : String

def Pt3.render (p : Pt3) : String :=
  p.x ++ "; " ++ p.y ++ "; " ++ p.z

/-- `honeybee.facetype` face types distinguished by the writer
(lines 92-97 of writer.py); `other s` covers the remaining types whose
`str(face.type)` is `s`. -/
inductive FaceKind : Type where
  | Wall
  | Floor
  | RoofCeiling
  | AirBoundary
  | other (s : String)

/-- `str(face.type)`. -/
def FaceKind.str : FaceKind → String
  | .Wall => "Wall"
  | .Floor => "Floor"
  | .RoofCeiling => "RoofCeiling"
  | .AirBoundary => "AirBoundary"
  | .other s => s

/-- The face boundary condition: either a `Surface` condition carrying the
identifiers of the adjacent face and room
(`face.boundary_condition.boundary_condition_objects`), or anything else
(Outdoors, Ground, Adiabatic ...), which the writer treats uniformly. -/
inductive BoundaryCond : Type where
  | surface (adjFace : String) (adjRoom : String)
  | otherBC

/-- A honeybee Aperture or Door (`isAperture = True` for Apertures). -/
structure SubFace where
  identifier : String
  displayName : String
  isAperture : Bool
  /-- `sub_face.geometry.boundary`. -/
  boundary : List Pt3
  /-- `sub_face.geometry.holes` (`has_holes` = the list is nonempty).
  Iterating the re-planed `Face3D(hole, plane=flip_plane)` yields the hole
  vertices in their stored order, so each hole is carried as its vertex
  list. -/
  holes : List (List Pt3)

/-- A honeybee Face. -/
structure Face where
  identifier : String
  displayName : String
  /-- `face.type`. -/
  ftype : FaceKind
  /-- `face.tilt`, in degrees (compared against `angle_tolerance`). -/
  tilt : Rat
  /-- `str(face.area)`. -/
  area : String
  /-- `str(face.geometry.azimuth)`. -/
  azimuth : String
  /-- `str(face.geometry.altitude)`. -/
  altitude : String
  /-- `str(face.gbxml_type)`. -/
  gbxmlType : String
  /-- `face.geometry.boundary`. -/
  boundary : List Pt3
  /-- `face.geometry.holes`. -/
  holes : List (List Pt3)
  /-- `face.parent.geometry.face_indices[face_index]` when `face.has_parent`
  (the vertex-index rings of this face inside the parent room's polyface:
  boundary ring first, then hole rings), `none` when the face has no
  parent.  The `face_index` selection is precomputed into this per-face
  field. -/
  parentRings : Option (List (List Nat))
  bc : BoundaryCond
  apertures : List SubFace
  doors : List SubFace
  /-- `face.user_data` (a string-to-string dict or `None`). -/
  userData : Option (List (String × String))

/-- A honeybee Room. -/
structure Room where
  identifier : String
  displayName : String
  /-- `str(room.volume)`. -/
  volume : String
  /-- `str(round(room.max.z - room.min.z, 4))` (the extrusion height). -/
  hgt : String
  /-- `room.geometry.vertices`. -/
  vertices : List Pt3
  faces : List Face
  /-- `room.is_extrusion(tolerance, angle_tolerance)`; the writer always
  calls it at the fixed tolerances of one conversion, so it is carried as a
  per-room fact. -/
  isExtrusion : Bool
  /-- `room.user_data`. -/
  userData : Option (List (String × String))

/-- A horizontal-boundary polygon returned by
`Room.grouped_horizontal_boundary`. -/
structure Perim where
  boundary : List Pt3
  holes : List (List Pt3)

/-- A honeybee Model. -/
structure HBModel where
  displayName : String
  units : String
  rooms : List Room
  /-- `model.stories`. -/
  stories : List String

/-- The external honeybee / ladybug-geometry operations the writer calls
(black-box collaborators per the spec).  Each field models one external
call site. -/
structure Ext where
  /-- `model.convert_to_units('Meters')`. -/
  convertToMeters : HBModel → HBModel
  /-- `model.remove_degenerate_geometry(0.01)`; `none` models the
  `ValueError` raised on failure. -/
  removeDegenerate : HBModel → Option HBModel
  /-- `model.shade_meshes_to_shades()`. -/
  shadeMeshesToShades : HBModel → HBModel
  /-- `model.assign_stories_by_floor_height(min_difference=2.0)`. -/
  assignStories : HBModel → HBModel
  /-- The per-room action of `model.reset_ids_to_integers(start_integer=...)`
  (which rewrites every identifier in place); the start integer of the one
  call the writer makes is folded into the oracle. -/
  resetRoomIds : Room → Room
  /-- The return value of `model.reset_ids_to_integers(start_integer=s)`. -/
  resetIdsLast : HBModel → Nat → Nat
  /-- `Room.group_by_story(rooms)` (the third returned component is unused
  by the writer). -/
  groupByStory : List Room → List (List Room) × List String
  /-- `Room.group_by_adjacency(rooms)`. -/
  groupByAdjacency : List Room → List (List Room)
  /-- `Room.join_adjacent_rooms(room_group, tolerance)`. -/
  joinAdjacentRooms : List Room → List Room
  /-- `Room.grouped_horizontal_boundary(room_group, tolerance=tolerance)`. -/
  groupedHorizontalBoundary : List Room → List Perim
  /-- `f.geometry.is_centered_adjacent(f2.geometry, tolerance)`. -/
  centeredAdjacent : Face → Face → Bool
  /-- `honeybee.typing.clean_string`. -/
  cleanString : String → String

/-! ## `_object_ids` (writer.py lines 650-663) -/

/-- The fixed six ObjectIDs attribute keys, in emission order. -/
def objectIdKeys : List String :=
  ["handle", "buildingHandle", "buildingBlockHandle", "zoneHandle",
   "surfaceIndex", "openingIndex"]

/-- `_object_ids(parent, handle, building, block, zone, surface, opening)`.
The Python defaults (`'-1'` for every field but `handle`) are written out
explicitly at each call site below, mirroring the source's omitted
arguments. -/
def objectIds (handle building block zone surface opening : String) : XElem :=
  .mk "ObjectIDs"
    [("handle", handle), ("buildingHandle", building),
     ("buildingBlockHandle", block), ("zoneHandle", zone),
     ("surfaceIndex", surface), ("openingIndex", opening)]
    none []

/-- Point3D child elements for a vertex list. -/
def ptElems (pts : List Pt3) : List XElem :=
  pts.map (fun p => XElem.mk "Point3D" [] (some p.render) [])

/-! ## `sub_face_to_dsbxml_element` (writer.py lines 18-67) -/

/-- The parent-surface context read from `surface_element`'s `ObjectIDs`
(when an Opening is written inside a Surface). -/
structure SurfCtx where
  blockHandle : String
  zoneHandle : String
  surfaceIndex : String

/-- `sub_face_to_dsbxml_element(sub_face, surface_element)`: the returned
Opening element (when `surface_element` is given the caller appends it to
the surface's `Openings` container). -/
def subFaceToDsbxmlElement (sf : SubFace) (ctx : Option SurfCtx) : XElem :=
  let openType := if sf.isAperture then "Window" else "Door"
  let blockHandle := match ctx with | some c => c.blockHandle | none => "-1"
  let zoneHandle := match ctx with | some c => c.zoneHandle | none => "-1"
  let surfaceIndex := match ctx with | some c => c.surfaceIndex | none => "0"
  -- one extra ObjectIDs record is appended to the Polygon per geometry hole
  -- (writer.py line 55 attaches it to `xml_sub_geo`, not to the hole)
  let holeObjIds := sf.holes.map (fun _ =>
    objectIds sf.identifier "0" blockHandle zoneHandle surfaceIndex "-1")
  let polygonHoles := XElem.mk "PolygonHoles" [] none
    (sf.holes.map (fun h =>
      XElem.mk "PolygonHole" [] none [XElem.mk "Vertices" [] none (ptElems h)]))
  let polygon := XElem.mk "Polygon" [("auxiliaryType", "-1")] none
    ([objectIds "-1" "0" blockHandle zoneHandle surfaceIndex "-1",
      XElem.mk "Vertices" [] none (ptElems sf.boundary),
      polygonHoles] ++ holeObjIds)
  let attrsElem := XElem.mk "Attributes" [] none
    [XElem.mk "Attribute" [("key", "Title")] (some sf.displayName) []]
  XElem.mk "Opening" [("type", openType)] none
    [polygon, attrsElem, XElem.mk "SegmentList" [] none []]

/-! ## `face_to_dsbxml_element` (writer.py lines 70-214) -/

/-- The zone-body context read from `zone_body_element` (its `ObjectIDs`
handles and the current children of its `Surfaces` container). -/
structure BodyCtx where
  /-- `obj_ids.get('buildingBlockHandle')`. -/
  blockHandle : String
  /-- `obj_ids.get('handle')`. -/
  zoneHandle : String
  /-- the children accumulated so far in the body's `Surfaces` element. -/
  surfaces : List XElem

/-- Face type classification (writer.py lines 92-97). -/
def faceTypeStr (f : Face) (angleTol : Rat) : String :=
  match f.ftype with
  | .RoofCeiling => if angleTol < f.tilt then "Pitched roof" else "Flat roof"
  | .AirBoundary => "Wall"
  | k => k.str

/-- `'; '.join(str(i) for i in ring)`. -/
def ringJoin (ring : List Nat) : String :=
  String.intercalate "; " (ring.map (fun i => toString i))

/-- The synthesized hole index rings for a parentless face
(writer.py lines 131-135): consecutive ranges following the boundary. -/
def synthHoleRings : Nat → List (List Pt3) → List (List Nat)
  | _, [] => []
  | counter, h :: rest =>
    List.range' counter h.length :: synthHoleRings (counter + h.length) rest

/-- The exception of writer.py lines 146-147.  Each `hole` iterated by
line 143 is an element of `face_indices[1:]`: a tuple of *integer* vertex
indices (line 137 renders exactly these integers as the hole's
`VertexIndices` text).  Line 146 builds `Face3D(hole)` from those
integers and line 147 forces `hole_geo.area`; integers carry no
coordinates, so the construction or the area computation raises inside
the external geometry library — before the duplicate Surface of line 148
is created, before the handle of lines 149-150 is allocated, and before
line 158 writes the `HoleIndices` text.  The exception class comes from
`ladybug_geometry`; this fixed string stands for it, and no theorem
depends on its wording. -/
def HOLE_FACE3D_ERROR : String :=
  "Face3D(hole) raised on integer vertex indices (writer.py lines 146-147)"

/-- The Adjacency section of a Surface (writer.py lines 177-212).  `holeIs`
is the `hole_is` list of container indices of the duplicated hole
Surfaces; the caller guarantees it is meaningful whenever `f.holes` is
nonempty. -/
def adjacencyElem (f : Face) (faceType blockHandle zoneHandle : String)
    (dsbFaceI : Nat) (holeIs : List Nat) : XElem :=
  let adjIds := match f.bc with
    | .surface adjFace adjRoom => objectIds "-1" "-1" "-1" adjRoom adjFace "-1"
    | .otherBC => objectIds "-1" "-1" "-1" "-1" "-1" "-1"
  let polyIds := match f.bc with
    | .surface _ _ => objectIds "-1" "-1" "-1" "-1" "-1" "-1"
    | .otherBC => objectIds "-1" "0" blockHandle zoneHandle (toString dsbFaceI) "-1"
  -- PolygonHoles is created as a child of the Vertices element
  -- (writer.py line 199); `hole_i` is an int rendered into the attribute.
  let holeElems := (f.holes.zip holeIs).map (fun hi =>
    XElem.mk "PolygonHole" [] none
      [(match f.bc with
        | .surface _ _ => objectIds "-1" "-1" "-1" "-1" "-1" "-1"
        | .otherBC => objectIds "-1" "0" blockHandle zoneHandle (toString hi.2) "-1"),
       XElem.mk "Vertices" [] none (ptElems hi.1)])
  let vertices := XElem.mk "Vertices" [] none
    (ptElems f.boundary ++ [XElem.mk "PolygonHoles" [] none holeElems])
  let polygon := XElem.mk "Polygon" [("auxiliaryType", "-1")] none
    [polyIds, vertices]
  let adjacency := XElem.mk "Adjacency"
    [("type", faceType), ("adjacencyDistance", "0.000")] none
    [adjIds, XElem.mk "AdjacencyPolygonList" [] none [polygon]]
  XElem.mk "Adjacencies" [] none [adjacency]

/-- `face_id_attr` (writer.py lines 98-106). -/
def faceIdAttrOf (f : Face) (angleTol : Rat) : List (String × String) :=
  [("type", faceTypeStr f angleTol), ("area", f.area), ("alpha", f.azimuth),
   ("phi", f.altitude), ("defaultOpenings", "False"),
   ("adjacentPartitionHandle", "-1"), ("thickness", "0.0")]

/-- The main Surface element assembled by `face_to_dsbxml_element`
(writer.py lines 108-212, without the hole duplication): its ObjectIDs is
built with the live zone handle and surface index (line 119), the
openings are written against those live values (lines 168-172), and then
both fields are reset to `'-1'` (lines 174-175). -/
def mainSurface (f : Face) (angleTol : Rat) (bh zh : String) (dsbI : Nat)
    (ring0 : List Nat) (holeIdxText : Option String) (holeIs : List Nat) :
    XElem :=
  let faceObjIds0 := objectIds f.identifier "0" bh zh (toString dsbI) "-1"
  let faceObjIds :=
    (faceObjIds0.set "zoneHandle" "-1").set "surfaceIndex" "-1"
  let subCtx : SurfCtx := ⟨bh, zh, toString dsbI⟩
  let openings := XElem.mk "Openings" [] none
    ((f.apertures ++ f.doors).map
      (fun sf => subFaceToDsbxmlElement sf (some subCtx)))
  let attrsElem := XElem.mk "Attributes" [] none
    [XElem.mk "Attribute" [("key", "Title")] (some f.displayName) [],
     XElem.mk "Attribute" [("key", "gbXMLSurfaceType")]
       (some f.gbxmlType) []]
  XElem.mk "Surface" (faceIdAttrOf f angleTol) none
    [faceObjIds,
     XElem.mk "VertexIndices" [] (some (ringJoin ring0)) [],
     XElem.mk "HoleIndices" [] holeIdxText [],
     attrsElem,
     openings,
     adjacencyElem f (faceTypeStr f angleTol) bh zh dsbI holeIs]

/-- Writer.py lines 139-158 for a face whose `face_indices` lists
`holeRings` hole rings.  With no hole rings the whole block is skipped
(line 141).  With any hole ring, the first loop iteration raises at
lines 146-147 (see `HOLE_FACE3D_ERROR`), so the loop emits nothing, no
handle is allocated, and the conversion aborts — with or without a zone
body, since the crash precedes line 148's `surfaces_element` use. -/
def holeStuffOf (f : Face) (ctx : Option BodyCtx) (c : Nat) (angleTol : Rat)
    (dsbFaceI : Nat) (holeRings : List (List Nat)) :
    Except String (List XElem × List Nat × Nat) :=
  match holeRings with
  | [] => .ok ([], [], c)
  | _ :: _ => .error HOLE_FACE3D_ERROR

/-- `face_to_dsbxml_element(face, zone_body_element, face_index,
angle_tolerance)`.  Returns the main Surface element, the duplicated hole
Surface elements appended after it in the same `Surfaces` container, the
face with its mutated `user_data`, and the updated handle counter.
The `face_index` argument of the source only selects
`face.parent.geometry.face_indices[face_index]`, which is precomputed in
`f.parentRings`.  Errors model the crash of lines 146-147 when
`face_indices` lists any hole ring (see `HOLE_FACE3D_ERROR`) and the
`NameError` of line 202, which references the unbound `hole_is` when the
geometry has holes but `face_indices` listed no hole ring. -/
def faceToDsbxmlElement (f : Face) (ctx : Option BodyCtx) (c : Nat)
    (angleTol : Rat) : Except String (XElem × List XElem × Face × Nat) :=
  let dsbFaceI := match ctx with
    | some bc => (bc.surfaces.filter (fun s => s.tag = "Surface")).length
    | none => 0
  let blockHandle := match ctx with | some bc => bc.blockHandle | none => "-1"
  let zoneHandle := match ctx with | some bc => bc.zoneHandle | none => "-1"
  -- lines 121-124: the face's user_data is mutated in place
  let face' : Face := { f with userData :=
    match f.userData with
    | none => some [("dsb_face_i", toString dsbFaceI)]
    | some d => some (dictSet d "dsb_face_i" (toString dsbFaceI)) }
  let rings := match f.parentRings with
    | some r => r
    | none =>
      List.range f.boundary.length :: synthHoleRings f.boundary.length f.holes
  match rings with
  | [] => .error "IndexError: face_indices[0]"
  | ring0 :: holeRings =>
    match holeStuffOf f ctx c angleTol dsbFaceI holeRings with
    | .error e => .error e
    | .ok (holeElems, holeIs, c') =>
      -- line 202 iterates `hole_is`, which is unbound when the face has
      -- geometry holes but `face_indices` listed no hole rings
      match f.holes, holeRings with
      | _ :: _, [] => .error "NameError: name 'hole_is' is not defined"
      | _, _ =>
        let holeIdxText : Option String := match holeRings with
          | [] => none
          | _ :: _ =>
            some (String.intercalate "; " (holeIs.map (fun i => toString i)))
        .ok (mainSurface f angleTol blockHandle zoneHandle dsbFaceI ring0
          holeIdxText holeIs, holeElems, face', c')

/-! ## `room_to_dsbxml_element` (writer.py lines 217-305) -/

/-- The block context read from `block_element`'s `ObjectIDs`. -/
structure BlockCtx where
  /-- `obj_ids.get('handle')`. -/
  blockHandle : String

/-- The loop of writer.py lines 265-266: write every face of the room into
the body's `Surfaces` container (each face appends its main Surface and
then its duplicated hole Surfaces), returning the container children, the
mutated faces and the updated counter. -/
def writeFaces (bh zh : String) (angleTol : Rat) :
    List Face → List XElem → Nat → Except String (List XElem × List Face × Nat)
  | [], surfs, c => .ok (surfs, [], c)
  | f :: fs, surfs, c =>
    match faceToDsbxmlElement f (some ⟨bh, zh, surfs⟩) c angleTol with
    | .error e => .error e
    | .ok (main, holes, f', c') =>
      match writeFaces bh zh angleTol fs (surfs ++ main :: holes) c' with
      | .error e => .error e
      | .ok (surfs', fs', c'') => .ok (surfs', f' :: fs', c'')

/-- `deepcopy(xml_face.find(t))` (writer.py lines 290-298); the tag is
always present in elements produced by `faceToDsbxmlElement`. -/
def copyChild (s : XElem) (t : String) : XElem :=
  (s.find? t).getD (XElem.mk t [] none [])

/-- One Surface of the `InnerSurfaceBody` (writer.py lines 288-301): a copy
of the written surface's attributes, ObjectIDs, VertexIndices and
HoleIndices plus fresh empty containers. -/
def innerSurfaceCopy (s : XElem) : XElem :=
  XElem.mk "Surface" s.attrs none
    [copyChild s "ObjectIDs", copyChild s "VertexIndices",
     copyChild s "HoleIndices",
     XElem.mk "Openings" [] none [],
     XElem.mk "Adjacencies" [] none [],
     XElem.mk "Attributes" [] none []]

/-- `room_to_dsbxml_element(room, block_element, tolerance,
angle_tolerance)`.  The absolute `tolerance` only feeds the external
`is_extrusion` test, which is carried in `room.isExtrusion`.  Returns the
Zone element, the room with its mutated faces, and the updated counter. -/
def roomToDsbxmlElement (room : Room) (ctx : Option BlockCtx) (c : Nat)
    (angleTol : Rat) : Except String (XElem × Room × Nat) :=
  let zoneIdAttr : List (String × String) :=
    [("parentZoneHandle", room.identifier),
     ("inheritedZoneHandle", room.identifier),
     ("planExtrusion", if room.isExtrusion then "True" else "False"),
     ("innerSurfaceMode", "Approximate")]
  let blockHandle := match ctx with | some b => b.blockHandle | none => "-1"
  match writeFaces blockHandle room.identifier angleTol room.faces [] c with
  | .error e => .error e
  | .ok (surfs, faces', c') =>
    let bodyAttrs : List (String × String) :=
      [("volume", room.volume), ("extrusionHeight", room.hgt)]
    let roomAttrElems :=
      XElem.mk "Attribute" [("key", "Title")] (some room.displayName) [] ::
      (match room.userData with
       | some d =>
         match dictGet? d "__identifier__" with
         | some idv => [XElem.mk "Attribute" [("key", "ID")] (some idv) []]
         | none => []
       | none => [])
    let body := XElem.mk "Body" bodyAttrs none
      [objectIds room.identifier "0" blockHandle "-1" "-1" "-1",
       XElem.mk "Vertices" [] none (ptElems room.vertices),
       XElem.mk "Surfaces" [] none surfs,
       XElem.mk "VoidPerimeterList" [] none [],
       XElem.mk "Attributes" [] none roomAttrElems]
    let innerBody := XElem.mk "Body" bodyAttrs none
      [objectIds room.identifier "0" blockHandle "-1" "-1" "-1",
       XElem.mk "Vertices" [] none (ptElems room.vertices),
       XElem.mk "Surfaces" [] none (surfs.map innerSurfaceCopy),
       XElem.mk "VoidPerimeterList" [] none [],
       XElem.mk "Attributes" [] none []]
    let zone := XElem.mk "Zone" zoneIdAttr none
      [body, XElem.mk "InnerSurfaceBody" [] none [innerBody]]
    .ok (zone, { room with faces := faces' }, c')

/-! ## `room_group_to_dsbxml_block` (writer.py lines 308-461) -/

/-- A Python subscript access `ud[key]` on a `user_data` dict that may be
`None`: raises `TypeError` on `None` and `KeyError` on a missing key. -/
def subscript (ud : Option (List (String × String))) (key : String) :
    Except String String :=
  match ud with
  | none => .error "TypeError: 'NoneType' object is not subscriptable"
  | some d =>
    match dictGet? d key with
    | some v => .ok v
    | none => .error ("KeyError: " ++ key)

/-- The zones loop (writer.py lines 366-368). -/
def writeRooms (blockHandle : String) (angleTol : Rat) :
    List Room → Nat → Except String (List XElem × List Room × Nat)
  | [], c => .ok ([], [], c)
  | r :: rs, c =>
    match roomToDsbxmlElement r (some ⟨blockHandle⟩) c angleTol with
    | .error e => .error e
    | .ok (z, r', c') =>
      match writeRooms blockHandle angleTol rs c' with
      | .error e => .error e
      | .ok (zs, rs', c'') => .ok (z :: zs, r' :: rs', c'')

/-- The inner matching loops of writer.py lines 372-379 for one fused face:
`for room in room_group: for f2 in room: if centered-adjacent: assign
user_data; break`.  The `break` leaves only the inner loop, so a match in
a later room overwrites an earlier one; each match subscripts the member
face's `user_data['dsb_face_i']`.  The geometry predicate reads only the
face geometry, so it is applied to the face as it was at loop entry
(`f0`); only `user_data` changes during the loop. -/
def matchRoomsLoop (ext : Ext) (f0 : Face) :
    List Room → Face → Except String Face
  | [], f => .ok f
  | r :: rs, f =>
    match r.faces.find? (fun f2 => ext.centeredAdjacent f0 f2) with
    | some f2 =>
      match subscript f2.userData "dsb_face_i" with
      | .error e => .error e
      | .ok v =>
        let ud := some [("zone_handle", r.identifier), ("surface_index", v)]
        matchRoomsLoop ext f0 rs { f with userData := ud }
    | none => matchRoomsLoop ext f0 rs f

/-- The fused-face preparation loop (writer.py lines 371-382): match each
face of the block room against the member rooms, strip its sub-faces and
give it a fresh integer identifier. -/
def matchBlockFaces (ext : Ext) (roomsUpd : List Room) :
    List Face → Nat → Except String (List Face × Nat)
  | [], c => .ok ([], c)
  | f :: fs, c =>
    match matchRoomsLoop ext f roomsUpd f with
    | .error e => .error e
    | .ok fM =>
      let fDone : Face :=
        { fM with apertures := [], doors := [], identifier := toString c }
      match matchBlockFaces ext roomsUpd fs (c + 1) with
      | .error e => .error e
      | .ok (fs', c') => .ok (fDone :: fs', c')

/-- The Adjacency redirection of writer.py lines 404-417, applied to the
Surface's `Adjacencies` container: identity handles are nulled and the
Adjacency's own ObjectIDs points at the matched member zone face. -/
def patchAdjacency (zh si : String) (adjs : XElem) : XElem :=
  adjs.updChild "Adjacency" (fun adj =>
    let adj1 := adj.updChild "ObjectIDs" (fun o =>
      ((((o.set "handle" "-1").set "buildingHandle" "-1").set
          "buildingBlockHandle" "-1").set "zoneHandle" zh).set
        "surfaceIndex" si)
    adj1.updChild "AdjacencyPolygonList" (fun polys =>
      polys.mapChildren (fun poly =>
        poly.updChild "ObjectIDs" (fun o =>
          ((((o.set "handle" "-1").set "buildingHandle" "-1").set
              "buildingBlockHandle" "-1").set "zoneHandle" "-1").set
            "surfaceIndex" "-1"))))

/-- The post-hoc patch of one fused Surface (writer.py lines 397-417):
default openings and thickness, re-clear the surface's own zone/surface
identity, redirect the Adjacency identity to the matched member zone face
(`face.user_data['zone_handle']` / `['surface_index']`, raising when the
face matched no member face), and null out the adjacency polygons'
identities. -/
def patchFusedSurface (main : XElem) (f : Face) : Except String XElem :=
  match subscript f.userData "zone_handle" with
  | .error e => .error e
  | .ok zh =>
    match subscript f.userData "surface_index" with
    | .error e => .error e
    | .ok si =>
      let m1 := (main.set "defaultOpenings" "True").set "thickness" "0.1"
      let m2 := m1.updChild "ObjectIDs" (fun o =>
        (o.set "zoneHandle" "-1").set "surfaceIndex" "-1")
      let m3 := m2.updChild "Adjacencies" (patchAdjacency zh si)
      .ok m3

/-- The fused-surface loop (writer.py lines 395-417): write each fused face
into the ProfileBody's `Surfaces` container and patch it in place. -/
def writeFusedFaces (bh zh : String) (angleTol : Rat) :
    List Face → List XElem → Nat → Except String (List XElem × Nat)
  | [], surfs, c => .ok (surfs, c)
  | f :: fs, surfs, c =>
    match faceToDsbxmlElement f (some ⟨bh, zh, surfs⟩) c angleTol with
    | .error e => .error e
    | .ok (main, holes, f', c') =>
      match patchFusedSurface main f' with
      | .error e => .error e
      | .ok mainP => writeFusedFaces bh zh angleTol fs (surfs ++ mainP :: holes) c'

/-- The output of the first phase of the block writer
(writer.py lines 332-417): fused block room, zones, updated member rooms
and fused surfaces. -/
structure BlockPhase1Out where
  zones : List XElem
  roomsUpd : List Room
  blockRoom : Room
  fusedSurfs : List XElem
  c : Nat

/-- Writer.py lines 332-417: the fused block room and its fresh handle,
the member zones, the fused-face matching, and the fused surfaces. -/
def blockPhase1 (ext : Ext) (roomGroup : List Room) (blockHandle : Nat)
    (c : Nat) (angleTol : Rat) : Except String BlockPhase1Out :=
  let blockRoom0 : Except String Room :=
    match roomGroup with
    | [r] => .ok r  -- room_group[0].duplicate()
    | rs =>
      match ext.joinAdjacentRooms rs with
      | r :: _ => .ok r
      | [] => .error "IndexError: list index out of range"
  match blockRoom0 with
  | .error e => .error e
  | .ok br0 =>
    let blockRoom1 : Room := { br0 with identifier := toString c }
    match writeRooms (toString blockHandle) angleTol roomGroup (c + 1) with
    | .error e => .error e
    | .ok (zones, roomsUpd, c2) =>
      match matchBlockFaces ext roomsUpd blockRoom1.faces c2 with
      | .error e => .error e
      | .ok (facesM, c3) =>
        let blockRoom2 := { blockRoom1 with faces := facesM }
        match writeFusedFaces (toString blockHandle) blockRoom2.identifier
            angleTol facesM [] c3 with
        | .error e => .error e
        | .ok (fusedSurfs, c4) => .ok ⟨zones, roomsUpd, blockRoom2, fusedSurfs, c4⟩

/-- The Perimeter section (writer.py lines 419-446): total; an empty result
from the external boundary operation is reported in the returned log list
and leaves the Perimeter element childless. -/
def blockPerimeter (ext : Ext) (roomsUpd : List Room) (blockHandle : Nat)
    (blockRoomId : String) (blockName : Option String) (c : Nat) :
    XElem × Nat × List String :=
  match ext.groupedHorizontalBoundary roomsUpd with
  | [] =>
    (XElem.mk "Perimeter" [] none [], c,
     ["Failed to calculate perimeter around block: " ++
       (match blockName with | some n => n | none => "None")])
  | p :: _ =>
    let holeElems := p.holes.map (fun h =>
      XElem.mk "PolygonHole" [] none
        [objectIds "-1" "-1" "-1" "-1" "-1" "-1",
         XElem.mk "Vertices" [] none (ptElems h)])
    let vertices := XElem.mk "Vertices" [] none
      (ptElems p.boundary ++ [XElem.mk "PolygonHoles" [] none holeElems])
    let polygon := XElem.mk "Polygon" [("auxiliaryType", "-1")] none
      [objectIds (toString c) "0" (toString blockHandle) blockRoomId "-1" "-1",
       vertices]
    (XElem.mk "Perimeter" [] none [polygon], c + 1, [])

/-- `room_group_to_dsbxml_block(room_group, block_handle, building_element,
block_name, tolerance, angle_tolerance)`.  `inBuilding` records whether a
Building element was supplied (when not, the source tags the element
`'Zone'`, line 355).  Returns the block element, the updated counter and
the log messages printed. -/
def roomGroupToDsbxmlBlock (ext : Ext) (roomGroup : List Room)
    (blockHandle : Nat) (inBuilding : Bool) (blockName : Option String)
    (c : Nat) (angleTol : Rat) : Except String (XElem × Nat × List String) :=
  match blockPhase1 ext roomGroup blockHandle c angleTol with
  | .error e => .error e
  | .ok out =>
    let br := out.blockRoom
    let blockType := if br.isExtrusion then "Plan extrusion" else "General"
    let blockIdAttr : List (String × String) :=
      [("type", blockType), ("height", br.hgt), ("roofSlope", "30.0000"),
       ("roofOverlap", "0.0000"), ("roofType", "Gable"),
       ("wallSlope", "80.0000")]
    let tag := if inBuilding then "BuildingBlock" else "Zone"
    let perim :=
      blockPerimeter ext out.roomsUpd blockHandle br.identifier blockName out.c
    let body := XElem.mk "Body"
      [("volume", br.volume), ("extrusionHeight", br.hgt)] none
      [objectIds br.identifier "0" (toString blockHandle) "-1" "-1" "-1",
       XElem.mk "Vertices" [] none (ptElems br.vertices),
       XElem.mk "Surfaces" [] none out.fusedSurfs,
       XElem.mk "VoidPerimeterList" [] none [],
       XElem.mk "Attributes" [] none []]
    let profileBody := XElem.mk "ProfileBody"
      [("elementSlope", "0.0000"), ("roofOverlap", "0.0000")] none [body]
    let attrsElem := XElem.mk "Attributes" [] none
      [XElem.mk "Attribute" [("key", "Title")]
        (some (match blockName with
               | some n => n
               | none => "Block " ++ toString blockHandle)) []]
    let blockElem := XElem.mk tag blockIdAttr none
      [objectIds (toString blockHandle) "0" "-1" "-1" "-1" "-1",
       XElem.mk "ComponentBlocks" [] none [],
       XElem.mk "CFDFans" [] none [],
       XElem.mk "AssemblyInstances" [] none [],
       XElem.mk "ProfileOutlines" [] none [],
       XElem.mk "VoidBodies" [] none [],
       XElem.mk "Zones" [] none out.zones,
       profileBody,
       perim.1,
       XElem.mk "InternalPartitions" [] none [],
       XElem.mk "BaseProfileBody" [] none [],
       attrsElem]
    .ok (blockElem, perim.2.1, perim.2.2)

/-! ## `model_to_dsbxml_element` (writer.py lines 464-553) -/

/-- Writer.py lines 491-492: erase each room's user data and store its
(post-normalization) identifier under `'__identifier__'`. -/
def assignRoomUserData (m : HBModel) : HBModel :=
  { m with rooms := m.rooms.map (fun r =>
      { r with userData := some [("__identifier__", r.identifier)] }) }

/-- Writer.py lines 477-478: scale the duplicate when the units are not
already meters. -/
def unitNormalized (ext : Ext) (m : HBModel) : HBModel :=
  if m.units ≠ "Meters" then ext.convertToMeters m else m

/-- Writer.py lines 477-492 applied to the duplicated model: unit
conversion, degenerate-geometry removal (the caught `ValueError` is
re-raised with the *original* model's declared units in the message),
shade-mesh flattening, automatic story assignment, and user-data
rewriting. -/
def normalizeModel (ext : Ext) (m : HBModel) : Except String HBModel :=
  match ext.removeDegenerate (unitNormalized ext m) with
  | none =>
    .error ("Failed to remove degenerate Rooms.\nYour Model units system is: "
      ++ m.units ++ ". Is this correct?")
  | some m2 =>
    let m3 := ext.shadeMeshesToShades m2
    let m4 :=
      if m3.stories.isEmpty && !m3.rooms.isEmpty then ext.assignStories m3
      else m3
    .ok (assignRoomUserData m4)

/-- Writer.py lines 525-536: group the rooms by story and, within a story,
by mutual adjacency, producing the ordered (room group, block name)
list.  A single-adjacency-group story keeps the whole story room list and
the plain story name; a multi-group story gets suffixed names. -/
def blockPartition (ext : Ext) (rooms : List Room) :
    List (List Room × String) :=
  let sg := ext.groupByStory rooms
  (sg.1.zip sg.2).flatMap (fun fr =>
    let adjRooms := ext.groupByAdjacency fr.1
    if adjRooms.length = 1 then [(fr.1, fr.2)]
    else ((List.range adjRooms.length).zip adjRooms).map
      (fun ig => (ig.2, fr.2 ++ " " ++ toString (ig.1 + 1))))

/-- Writer.py lines 545-547: translate each block, with handles 1, 2, ...
in partition order; `i` is the running 0-based index. -/
def writeBlocks (ext : Ext) (angleTol : Rat) :
    List (List Room × String) → Nat → Nat →
    Except String (List XElem × Nat × List String)
  | [], _, c => .ok ([], c, [])
  | g :: gs, i, c =>
    match roomGroupToDsbxmlBlock ext g.1 (i + 1) true (some g.2) c angleTol with
    | .error e => .error e
    | .ok (blk, c', logs) =>
      match writeBlocks ext angleTol gs (i + 1) c' with
      | .error e => .error e
      | .ok (blks, c'', logs') => .ok (blk :: blks, c'', logs ++ logs')

/-- Writer.py lines 495-523 and 549-550: the fixed document skeleton
around the written blocks — root, Site (whose handle is finally set to the
counter value `cF`), Building header and placeholder containers. -/
def assembleDoc (modelName date : String) (blks : List XElem) (cF : Nat) :
    XElem :=
  let building := XElem.mk "Building"
    [("currentComponentBlockHandle", "-1"),
     ("currentAssemblyInstanceHandle", "-1"),
     ("currentPlaneHandle", "-1")] none
    [objectIds "0" "-1" "-1" "-1" "-1" "-1",
     XElem.mk "ComponentBlocks" [] none [],
     XElem.mk "AssemblyInstances" [] none [],
     XElem.mk "ProfileOutlines" [] none [],
     XElem.mk "ConstructionLines" [] none [],
     XElem.mk "Planes" [] none [],
     XElem.mk "HVACNetwork" [] none [],
     XElem.mk "BookmarkBuildings" [("numberOfBuildings", "0")] none [],
     XElem.mk "Attributes" [] none
       [XElem.mk "Attribute" [("key", "GeometryDataLevel")] (some "3") []],
     XElem.mk "BuildingBlocks" [] none blks]
  let site0 := XElem.mk "Site" [("handle", "-1"), ("count", "1")] none
    [XElem.mk "Attributes" [] none [],
     XElem.mk "Tables" [] none [],
     XElem.mk "AssemblyLibrary" [] none [],
     XElem.mk "Buildings" [("numberOfBuildings", "1")] none [building]]
  -- line 550: xml_site.set('handle', str(HANDLE_COUNTER))
  let site := site0.set "handle" (toString cF)
  XElem.mk "dsbXML"
    [("name", "~" ++ modelName), ("date", date),
     ("version", DESIGNBUILDER_VERSION), ("objects", "all")] none [site]

/-- Writer.py lines 472-550 (everything but the duplicate/return
bookkeeping): normalize the duplicated model, partition the rooms into
blocks, seed the counter at `len(block_rooms) + 1`, rewrite all
identifiers to integers (`reset_ids_to_integers` returning `L`, then
counter `L + 1`), write every block, and assemble the skeleton with the
Site handle set to the final counter value, which is returned alongside
the document and the log messages. -/
def modelConvertCore (ext : Ext) (m : HBModel) (date : String) :
    Except String (XElem × Nat × List String) :=
  match normalizeModel ext m with
  | .error e => .error e
  | .ok m6 =>
    let modelName := ext.cleanString m6.displayName
    let groups := blockPartition ext m6.rooms
    -- line 539: HANDLE_COUNTER = len(block_rooms) + 1, discarding the
    -- counter's previous value
    let B := groups.length
    -- lines 541-542: the in-place identifier rewrite acts on the very room
    -- objects held by the groups; modelled as a per-room rewrite
    let L := ext.resetIdsLast m6 (B + 1)
    let groupsR := groups.map (fun g => (g.1.map ext.resetRoomIds, g.2))
    match writeBlocks ext 1 groupsR 0 (L + 1) with
    | .error e => .error e
    | .ok (blks, cF, logs) => .ok (assembleDoc modelName date blks cF, cF, logs)

/-- `model_to_dsbxml_element(model)` with the generation date and the
global `HANDLE_COUNTER` made explicit.  The model is duplicated on entry
(line 475) and every in-place edit applies to the duplicate, so the
caller's model is returned unchanged next to the document; the counter
argument is overwritten (line 539) before its first use and reset to 1
(line 551) on the way out.  Log messages printed during conversion are
returned last. -/
def modelToDsbxmlElement (ext : Ext) (m : HBModel) (date : String) (_c : Nat) :
    Except String (XElem × HBModel × Nat × List String) :=
  match modelConvertCore ext m date with
  | .error e => .error e
  | .ok (root, _, logs) => .ok (root, m, 1, logs)

/-! ## Document collectors

Traversals of the finished tree used to state the claims: the non-sentinel
`ObjectIDs` handle values in document order (with and without the
`InnerSurfaceBody` subtrees), and the attribute-key lists of every
`ObjectIDs` record. -/

mutual

/-- All `ObjectIDs` `handle` attribute values other than the sentinel
`'-1'`, in document order. -/
def docHandles : XElem → List String
  | .mk t a _ cs =>
    (if t = "ObjectIDs" then
      (match dictGet? a "handle" with
       | some h => if h = "-1" then [] else [h]
       | none => [])
     else []) ++ docHandlesL cs

def docHandlesL : List XElem → List String
  | [] => []
  | e :: es => docHandles e ++ docHandlesL es

end

mutual

/-- As `docHandles`, but skipping every `InnerSurfaceBody` subtree (whose
records are wholesale copies of the zone body's records). -/
def mainHandles : XElem → List String
  | .mk t a _ cs =>
    (if t = "ObjectIDs" then
      (match dictGet? a "handle" with
       | some h => if h = "-1" then [] else [h]
       | none => [])
     else []) ++ (if t = "InnerSurfaceBody" then [] else mainHandlesL cs)

def mainHandlesL : List XElem → List String
  | [] => []
  | e :: es => mainHandles e ++ mainHandlesL es

end

mutual

/-- The attribute-key lists of every `ObjectIDs` element in the tree, in
document order. -/
def objIdKeyLists : XElem → List (List String)
  | .mk t a _ cs =>
    (if t = "ObjectIDs" then [a.map (fun kv => kv.1)] else []) ++
      objIdKeyListsL cs

def objIdKeyListsL : List XElem → List (List String)
  | [] => []
  | e :: es => objIdKeyLists e ++ objIdKeyListsL es

end

/-! ## Injectivity of decimal rendering

Handle values are emitted as `toString (n : Nat)` (Python `str(int)`).
Distinctness arguments about the document need that this rendering is
injective and never produces the sentinel `'-1'`; neither fact is in the
library, so they are proved here via a digit-parsing round trip. -/

/-- The numeric value of a decimal digit character (junk on others). -/
def digitVal (c : Char) : Nat :=
  if c = '0' then 0 else
  if c = '1' then 1 else
  if c = '2' then 2 else
  if c = '3' then 3 else
  if c = '4' then 4 else
  if c = '5' then 5 else
  if c = '6' then 6 else
  if c = '7' then 7 else
  if c = '8' then 8 else
  if c = '9' then 9 else 10

/-- Fold a character list as a decimal numeral onto the accumulator. -/
def parseDigits (a : Nat) : List Char → Nat
  | [] => a
  | c :: cs => parseDigits (a * 10 + digitVal c) cs

/-- The digit-character list of a natural number, most significant first
(the fuel-free counterpart of `Nat.toDigits 10`). -/
def digitChars (n : Nat) : List Char :=
  if _h : n < 10 then [Nat.digitChar n]
  else digitChars (n / 10) ++ [Nat.digitChar (n % 10)]
termination_by n
decreasing_by
  exact Nat.div_lt_self (by omega) (by omega)

theorem digitVal_digitChar : ∀ d : Nat, d < 10 → digitVal (Nat.digitChar d) = d := by
  decide

theorem toDigitsCore_eq_digitChars :
    ∀ fuel n acc, n < fuel →
      Nat.toDigitsCore 10 fuel n acc = digitChars n ++ acc := by
  intro fuel
  induction fuel with
  | zero => intro n acc h; exact absurd h (Nat.not_lt_zero n)
  | succ fuel ih =>
    intro n acc h
    rw [show Nat.toDigitsCore 10 (fuel + 1) n acc =
        (if n / 10 = 0 then Nat.digitChar (n % 10) :: acc
         else Nat.toDigitsCore 10 fuel (n / 10) (Nat.digitChar (n % 10) :: acc))
      from rfl]
    by_cases h10 : n / 10 = 0
    · have hn : n < 10 := by omega
      rw [if_pos h10, digitChars, dif_pos hn, Nat.mod_eq_of_lt hn]
      simp
    · have hlt : n / 10 < fuel := by omega
      rw [if_neg h10, ih (n / 10) _ hlt]
      conv_rhs => rw [digitChars]
      rw [dif_neg (by omega : ¬ n < 10)]
      simp

theorem parseDigits_append (a : Nat) (l1 l2 : List Char) :
    parseDigits a (l1 ++ l2) = parseDigits (parseDigits a l1) l2 := by
  induction l1 generalizing a with
  | nil => simp [parseDigits]
  | cons c cs ih => simp [parseDigits, ih]

theorem parseDigits_digitChars (n : Nat) :
    ∀ a, parseDigits a (digitChars n) = a * 10 ^ (digitChars n).length + n := by
  induction n using Nat.strong_induction_on with
  | _ n ih =>
    intro a
    by_cases h : n < 10
    · rw [digitChars, dif_pos h]
      simp [parseDigits, digitVal_digitChar n h]
    · rw [digitChars, dif_neg h]
      have hlt : n / 10 < n := Nat.div_lt_self (by omega) (by omega)
      rw [parseDigits_append, ih (n / 10) hlt a]
      have hdg : digitVal (Nat.digitChar (n % 10)) = n % 10 :=
        digitVal_digitChar (n % 10) (Nat.mod_lt n (by omega))
      simp only [parseDigits, hdg, List.length_append, List.length_cons,
        List.length_nil]
      have hdm : n / 10 * 10 + n % 10 = n := by omega
      calc (a * 10 ^ (digitChars (n / 10)).length + n / 10) * 10 + n % 10
          = a * (10 ^ (digitChars (n / 10)).length * 10) +
              (n / 10 * 10 + n % 10) := by ring
        _ = a * 10 ^ ((digitChars (n / 10)).length + 1) + n := by
            rw [hdm, pow_succ]

theorem digitChars_injective (m n : Nat) (h : digitChars m = digitChars n) :
    m = n := by
  have hm := parseDigits_digitChars m 0
  have hn := parseDigits_digitChars n 0
  rw [h] at hm
  simp only [Nat.zero_mul] at hm hn
  omega

theorem natToString_eq_digitChars (n : Nat) :
    toString n = (digitChars n).asString := by
  show (Nat.toDigitsCore 10 (n + 1) n []).asString = (digitChars n).asString
  rw [toDigitsCore_eq_digitChars (n + 1) n [] (Nat.lt_succ_self n)]
  simp

/-- `str(int)` is injective. -/
theorem natToString_injective (m n : Nat) (h : toString m = toString n) :
    m = n := by
  rw [natToString_eq_digitChars, natToString_eq_digitChars] at h
  apply digitChars_injective
  have := congrArg String.data h
  simpa [List.asString] using this

theorem digitChars_are_digits (n : Nat) :
    ∀ c ∈ digitChars n, ∃ d, d < 10 ∧ c = Nat.digitChar d := by
  induction n using Nat.strong_induction_on with
  | _ n ih =>
    intro c hc
    by_cases h : n < 10
    · rw [digitChars, dif_pos h] at hc
      simp at hc
      exact ⟨n, h, hc⟩
    · rw [digitChars, dif_neg h] at hc
      rcases List.mem_append.1 hc with hc1 | hc1
      · exact ih (n / 10) (Nat.div_lt_self (by omega) (by omega)) c hc1
      · simp at hc1
        exact ⟨n % 10, Nat.mod_lt n (by omega), hc1⟩

/-- `str(int)` never yields the sentinel `'-1'`. -/
theorem natToString_ne_neg1 (n : Nat) : toString n ≠ "-1" := by
  intro h
  rw [natToString_eq_digitChars] at h
  have hl : digitChars n = ['-', '1'] := by
    have := congrArg String.data h
    simpa [List.asString] using this
  have hmem := digitChars_are_digits n '-' (by rw [hl]; simp)
  rcases hmem with ⟨d, hd, hdc⟩
  have hno : ∀ d : Nat, d < 10 → Nat.digitChar d ≠ '-' := by decide
  exact hno d hd hdc.symm

/-! ## Dictionary lemmas -/

theorem dictGet?_dictSet_self (d : List (String × String)) (k v : String) :
    dictGet? (dictSet d k v) k = some v := by
  induction d with
  | nil => simp [dictSet, dictGet?]
  | cons kv rest ih =>
    by_cases h : kv.1 = k
    · simp [dictSet, dictGet?, h]
    · simp [dictSet, dictGet?, h, ih]

/-- `elem.set` on a key the dictionary already has keeps the key list. -/
theorem dictSet_keys_of_mem (d : List (String × String)) (k v : String)
    (h : k ∈ d.map Prod.fst) :
    (dictSet d k v).map Prod.fst = d.map Prod.fst := by
  induction d with
  | nil => simp at h
  | cons kv rest ih =>
    by_cases hk : kv.1 = k
    · simp [dictSet, hk]
    · simp only [List.map_cons] at h
      rcases List.mem_cons.1 h with h1 | h1
      · exact absurd h1.symm hk
      · simp [dictSet, hk, ih h1]

/-! ## The six-field ObjectIDs property (document-wide) -/

/-- Every `ObjectIDs` record in the subtree carries exactly the six fixed
keys, in order. -/
def AllSix (e : XElem) : Prop :=
  ∀ ks ∈ objIdKeyLists e, ks = objectIdKeys

def AllSixL (l : List XElem) : Prop :=
  ∀ ks ∈ objIdKeyListsL l, ks = objectIdKeys

theorem allSixL_nil : AllSixL [] := by
  intro ks h
  simp [objIdKeyListsL] at h

theorem allSixL_cons (e : XElem) (l : List XElem) :
    AllSixL (e :: l) ↔ AllSix e ∧ AllSixL l := by
  simp [AllSixL, AllSix, objIdKeyListsL, or_imp, forall_and]

theorem objIdKeyListsL_append (l1 l2 : List XElem) :
    objIdKeyListsL (l1 ++ l2) = objIdKeyListsL l1 ++ objIdKeyListsL l2 := by
  induction l1 with
  | nil => simp [objIdKeyListsL]
  | cons e es ih => simp [objIdKeyListsL, ih]

theorem allSixL_append (l1 l2 : List XElem) :
    AllSixL (l1 ++ l2) ↔ AllSixL l1 ∧ AllSixL l2 := by
  simp [AllSixL, objIdKeyListsL_append, or_imp, forall_and]

theorem allSix_mk (t : String) (a : List (String × String))
    (tx : Option String) (cs : List XElem) :
    AllSix (XElem.mk t a tx cs) ↔
      ((t = "ObjectIDs" → a.map Prod.fst = objectIdKeys) ∧ AllSixL cs) := by
  by_cases h : t = "ObjectIDs" <;>
    simp [AllSix, AllSixL, objIdKeyLists, h]

theorem allSix_objectIds (h b bl z s o : String) :
    AllSix (objectIds h b bl z s o) := by
  rw [objectIds, allSix_mk]
  exact ⟨fun _ => by simp [objectIdKeys], allSixL_nil⟩

theorem objIdKeyListsL_ptElems (pts : List Pt3) :
    objIdKeyListsL (ptElems pts) = [] := by
  induction pts with
  | nil => simp [ptElems, objIdKeyListsL]
  | cons p ps ih =>
    simp only [ptElems, List.map_cons, objIdKeyListsL, objIdKeyLists]
    simpa [ptElems] using ih

theorem allSixL_ptElems (pts : List Pt3) : AllSixL (ptElems pts) := by
  intro ks h
  rw [objIdKeyListsL_ptElems] at h
  simp at h

theorem allSixL_map {α : Type} (g : α → XElem) (l : List α)
    (h : ∀ x, AllSix (g x)) : AllSixL (l.map g) := by
  induction l with
  | nil => exact allSixL_nil
  | cons x xs ih => exact (allSixL_cons _ _).2 ⟨h x, ih⟩

theorem allSixL_replicate (n : Nat) (e : XElem) (h : AllSix e) :
    AllSixL (List.replicate n e) := by
  induction n with
  | zero => exact allSixL_nil
  | succ k ih => exact (allSixL_cons _ _).2 ⟨h, ih⟩

theorem allSixL_of_each (l : List XElem) (h : ∀ s ∈ l, AllSix s) :
    AllSixL l := by
  induction l with
  | nil => exact allSixL_nil
  | cons e es ih =>
    exact (allSixL_cons _ _).2
      ⟨h e (List.mem_cons_self e es), ih (fun s hs => h s (List.mem_cons_of_mem e hs))⟩

theorem allSix_subFace (sf : SubFace) (ctx : Option SurfCtx) :
    AllSix (subFaceToDsbxmlElement sf ctx) := by
  simp [subFaceToDsbxmlElement, allSix_mk, allSixL_cons, allSixL_append,
    allSixL_nil, allSix_objectIds, allSixL_ptElems]
  constructor
  · exact allSixL_map _ _ (fun h => by
      simp [allSix_mk, allSixL_cons, allSixL_nil, allSixL_ptElems])
  · exact allSixL_replicate _ _ (allSix_objectIds _ _ _ _ _ _)

theorem allSix_adjacency (f : Face) (faceType bh zh : String) (dsbI : Nat)
    (holeIs : List Nat) :
    AllSix (adjacencyElem f faceType bh zh dsbI holeIs) := by
  cases hbc : f.bc <;>
    simp [adjacencyElem, hbc, allSix_mk, allSixL_cons, allSixL_append,
      allSixL_nil, allSixL_ptElems, allSix_objectIds] <;>
    exact allSixL_map _ _ (fun hi => by
      simp [allSix_mk, allSixL_cons, allSixL_nil, allSixL_ptElems,
        allSix_objectIds])

/-- A Surface element as emitted into a `Surfaces` container: its records
all carry the six keys, its tag is `Surface`, and the children that the
`InnerSurfaceBody` copy loop looks up are present with the expected
shapes. -/
def GoodSurf (s : XElem) : Prop :=
  AllSix s ∧ s.tag = "Surface" ∧
  (∃ a, s.find? "ObjectIDs" = some (XElem.mk "ObjectIDs" a none []) ∧
    a.map Prod.fst = objectIdKeys) ∧
  (∃ tx, s.find? "VertexIndices" = some (XElem.mk "VertexIndices" [] tx [])) ∧
  (∃ tx, s.find? "HoleIndices" = some (XElem.mk "HoleIndices" [] tx []))

theorem goodSurf_mainSurface (f : Face) (angleTol : Rat) (bh zh : String)
    (dsbI : Nat) (ring0 : List Nat) (holeIdxText : Option String)
    (holeIs : List Nat) :
    GoodSurf (mainSurface f angleTol bh zh dsbI ring0 holeIdxText holeIs) := by
  refine ⟨?_, rfl, ?_, ?_, ?_⟩
  · simp [mainSurface, allSix_mk, allSixL_cons, allSixL_append, allSixL_nil,
      objectIds, XElem.set, dictSet, allSix_adjacency, XElem.tag,
      XElem.attrs, XElem.text, XElem.children]
    refine ⟨by simp [objectIdKeys], ?_, ?_⟩ <;>
      exact allSixL_map _ _ (fun sf => allSix_subFace sf _)
  · exact ⟨[("handle", f.identifier), ("buildingHandle", "0"),
      ("buildingBlockHandle", bh), ("zoneHandle", "-1"),
      ("surfaceIndex", "-1"), ("openingIndex", "-1")],
      by simp [mainSurface, XElem.find?, XElem.children, XElem.tag,
        XElem.attrs, XElem.text, List.find?, objectIds, XElem.set, dictSet],
      by simp [objectIdKeys]⟩
  · exact ⟨some (ringJoin ring0), by simp [mainSurface, XElem.find?,
      XElem.children, XElem.tag, XElem.attrs, XElem.text, List.find?,
      objectIds, XElem.set, dictSet]⟩
  · exact ⟨holeIdxText, by simp [mainSurface, XElem.find?, XElem.children,
      XElem.tag, XElem.attrs, XElem.text, List.find?, objectIds, XElem.set,
      dictSet]⟩

theorem holeStuffOf_goodSurf (f : Face) (ctx : Option BodyCtx) (c : Nat)
    (angleTol : Rat) (dsbFaceI : Nat) (holeRings : List (List Nat))
    (he : List XElem) (his : List Nat) (c' : Nat)
    (h : holeStuffOf f ctx c angleTol dsbFaceI holeRings =
      .ok (he, his, c')) :
    ∀ s ∈ he, GoodSurf s := by
  unfold holeStuffOf at h
  split at h
  · simp only [Except.ok.injEq, Prod.mk.injEq] at h
    obtain ⟨h1, -, -⟩ := h
    subst h1
    intro s hs
    exact absurd hs (List.not_mem_nil s)
  · exact Except.noConfusion h

theorem allSixL_map_of {α : Type} (g : α → XElem) (l : List α)
    (h : ∀ x ∈ l, AllSix (g x)) : AllSixL (l.map g) := by
  induction l with
  | nil => exact allSixL_nil
  | cons x xs ih =>
    exact (allSixL_cons _ _).2 ⟨h x (List.mem_cons_self x xs),
      ih (fun y hy => h y (List.mem_cons_of_mem x hy))⟩

/-- The `InnerSurfaceBody` copy of a well-formed Surface has six-key
records (they are copies of the original's). -/
theorem goodSurf_innerCopy (s : XElem) (h : GoodSurf s) :
    AllSix (innerSurfaceCopy s) := by
  obtain ⟨-, -, ⟨a, hoa, hak⟩, ⟨t1, hv⟩, ⟨t2, hh⟩⟩ := h
  simp [innerSurfaceCopy, copyChild, hoa, hv, hh, allSix_mk, allSixL_cons,
    allSixL_nil, hak]

/-- On success, `face_to_dsbxml_element` emits only well-formed Surface
elements. -/
theorem faceToDsbxml_goodSurf (f : Face) (ctx : Option BodyCtx) (c : Nat)
    (angleTol : Rat) (main : XElem) (holes : List XElem) (f' : Face)
    (c' : Nat)
    (h : faceToDsbxmlElement f ctx c angleTol = .ok (main, holes, f', c')) :
    GoodSurf main ∧ ∀ s ∈ holes, GoodSurf s := by
  simp only [faceToDsbxmlElement] at h
  repeat' split at h
  all_goals try exact Except.noConfusion h
  all_goals simp only [Except.ok.injEq, Prod.mk.injEq] at h
  all_goals obtain ⟨hm, hh, -, -⟩ := h
  all_goals subst hm
  all_goals subst hh
  all_goals refine ⟨goodSurf_mainSurface _ _ _ _ _ _ _ _, ?_⟩
  all_goals exact holeStuffOf_goodSurf _ _ _ _ _ _ _ _ _ (by assumption)

/-- Every Surface in the container built by the faces loop is
well-formed. -/
theorem writeFaces_goodSurf (bh zh : String) (angleTol : Rat) :
    ∀ (fs : List Face) (surfs : List XElem) (c : Nat) (surfs' : List XElem)
      (fs' : List Face) (c' : Nat),
      (∀ s ∈ surfs, GoodSurf s) →
      writeFaces bh zh angleTol fs surfs c = .ok (surfs', fs', c') →
      ∀ s ∈ surfs', GoodSurf s := by
  intro fs
  induction fs with
  | nil =>
    intro surfs c surfs' fs' c' hg h
    simp only [writeFaces, Except.ok.injEq, Prod.mk.injEq] at h
    obtain ⟨h1, -, -⟩ := h
    subst h1
    exact hg
  | cons f fsT ih =>
    intro surfs c surfs' fs' c' hg h
    simp only [writeFaces] at h
    split at h
    · exact Except.noConfusion h
    · split at h
      · exact Except.noConfusion h
      · simp only [Except.ok.injEq, Prod.mk.injEq] at h
        obtain ⟨h1, -, -⟩ := h
        subst h1
        have hgs := faceToDsbxml_goodSurf _ _ _ _ _ _ _ _ (by assumption)
        refine ih _ _ _ _ _ ?_ (by assumption)
        intro s hs
        rcases List.mem_append.1 hs with h1 | h1
        · exact hg s h1
        · rcases List.mem_cons.1 h1 with h2 | h2
          · rw [h2]; exact hgs.1
          · exact hgs.2 s h2

/-- On success, the Zone element written for a room carries only six-key
ObjectIDs records (including the `InnerSurfaceBody` copies). -/
theorem roomToDsbxml_allSix (room : Room) (ctx : Option BlockCtx) (c : Nat)
    (angleTol : Rat) (zone : XElem) (room' : Room) (c' : Nat)
    (h : roomToDsbxmlElement room ctx c angleTol = .ok (zone, room', c')) :
    AllSix zone := by
  simp only [roomToDsbxmlElement] at h
  split at h
  · exact Except.noConfusion h
  · simp only [Except.ok.injEq, Prod.mk.injEq] at h
    obtain ⟨h1, -, -⟩ := h
    subst h1
    have hgs := writeFaces_goodSurf _ _ _ _ _ _ _ _ _
      (fun s hs => absurd hs (List.not_mem_nil s)) (by assumption)
    simp [allSix_mk, allSixL_cons, allSixL_append, allSixL_nil,
      allSix_objectIds, allSixL_ptElems]
    refine ⟨⟨allSixL_of_each _ (fun s hs => (hgs s hs).1), ?_⟩,
      allSixL_map_of _ _ (fun s hs => goodSurf_innerCopy s (hgs s hs))⟩
    cases room.userData with
    | none => exact allSixL_nil
    | some d =>
      rcases hg2 : dictGet? d "__identifier__" with - | idv <;>
        simp [hg2, allSixL_cons, allSix_mk, allSixL_nil]

theorem allSixL_each (l : List XElem) (h : AllSixL l) : ∀ x ∈ l, AllSix x := by
  induction l with
  | nil => intro x hx; exact absurd hx (List.not_mem_nil x)
  | cons e es ih =>
    intro x hx
    obtain ⟨he, hes⟩ := (allSixL_cons _ _).1 h
    rcases List.mem_cons.1 hx with h1 | h1
    · rw [h1]; exact he
    · exact ih hes x h1

theorem allSix_set (e : XElem) (k v : String) (h : AllSix e)
    (hk : e.tag = "ObjectIDs" → k ∈ objectIdKeys) : AllSix (e.set k v) := by
  obtain ⟨t, a, tx, cs⟩ := e
  simp only [XElem.set, XElem.tag, XElem.attrs, XElem.text,
    XElem.children] at *
  rw [allSix_mk] at h ⊢
  refine ⟨?_, h.2⟩
  intro ht
  have h6 := h.1 ht
  have hmem : k ∈ a.map Prod.fst := by rw [h6]; exact hk ht
  rw [dictSet_keys_of_mem a k v hmem]
  exact h6

theorem allSixL_updFirstTag (t : String) (g : XElem → XElem)
    (l : List XElem) (h : AllSixL l)
    (hg : ∀ x, AllSix x → AllSix (g x)) : AllSixL (updFirstTag t g l) := by
  induction l with
  | nil => simpa [updFirstTag] using h
  | cons x xs ih =>
    obtain ⟨hx, hxs⟩ := (allSixL_cons _ _).1 h
    by_cases hxt : x.tag = t
    · simp only [updFirstTag, hxt, if_pos]
      exact (allSixL_cons _ _).2 ⟨hg x hx, hxs⟩
    · simp only [updFirstTag, hxt, if_neg, ite_false]
      exact (allSixL_cons _ _).2 ⟨hx, ih hxs⟩

theorem allSix_updChild (e : XElem) (t : String) (g : XElem → XElem)
    (h : AllSix e) (hg : ∀ x, AllSix x → AllSix (g x)) :
    AllSix (e.updChild t g) := by
  obtain ⟨t0, a, tx, cs⟩ := e
  simp only [XElem.updChild, XElem.tag, XElem.attrs, XElem.text,
    XElem.children]
  rw [allSix_mk] at h ⊢
  exact ⟨h.1, allSixL_updFirstTag t g cs h.2 hg⟩

theorem allSix_mapChildren (e : XElem) (g : XElem → XElem)
    (h : AllSix e) (hg : ∀ x, AllSix x → AllSix (g x)) :
    AllSix (e.mapChildren g) := by
  obtain ⟨t0, a, tx, cs⟩ := e
  simp only [XElem.mapChildren, XElem.tag, XElem.attrs, XElem.text,
    XElem.children]
  rw [allSix_mk] at h ⊢
  exact ⟨h.1, allSixL_map_of g cs
    (fun x hx => hg x (allSixL_each cs h.2 x hx))⟩

/-- `XElem.set` keeps the tag. -/
theorem tag_set (e : XElem) (k v : String) : (e.set k v).tag = e.tag := rfl

/-- The post-hoc patch of a fused Surface only rewrites existing
six-key record fields, so the six-key property survives it. -/
theorem allSix_patch (main : XElem) (f : Face) (mainP : XElem)
    (hm : AllSix main) (ht : ¬ main.tag = "ObjectIDs")
    (h : patchFusedSurface main f = .ok mainP) : AllSix mainP := by
  have hset : ∀ (k : String), k ∈ objectIdKeys → ∀ (v : String) (x : XElem),
      AllSix x → AllSix (x.set k v) :=
    fun k hk v x hx => allSix_set x k v hx (fun _ => hk)
  have hobj : ∀ (a b : String) (x : XElem), AllSix x →
      AllSix (((((x.set "handle" "-1").set "buildingHandle" "-1").set
        "buildingBlockHandle" "-1").set "zoneHandle" a).set
        "surfaceIndex" b) := by
    intro a b x hx
    refine hset _ (by simp [objectIdKeys]) _ _
      (hset _ (by simp [objectIdKeys]) _ _
        (hset _ (by simp [objectIdKeys]) _ _
          (hset _ (by simp [objectIdKeys]) _ _
            (hset _ (by simp [objectIdKeys]) _ _ hx))))
  simp only [patchFusedSurface] at h
  split at h
  · exact Except.noConfusion h
  · split at h
    · exact Except.noConfusion h
    · simp only [Except.ok.injEq] at h
      subst h
      have h1 : AllSix ((main.set "defaultOpenings" "True").set
          "thickness" "0.1") := by
        refine allSix_set _ _ _ (allSix_set _ _ _ hm (fun hh => absurd hh ht))
          (fun hh => ?_)
        rw [tag_set] at hh
        exact absurd hh ht
      refine allSix_updChild _ _ _ (allSix_updChild _ _ _ h1 ?_) ?_
      · intro x hx
        exact hset _ (by simp [objectIdKeys]) _ _
          (hset _ (by simp [objectIdKeys]) _ _ hx)
      · intro adjs hadjs
        simp only [patchAdjacency]
        refine allSix_updChild _ _ _ hadjs ?_
        intro adj hadj
        refine allSix_updChild _ _ _ (allSix_updChild _ _ _ hadj ?_) ?_
        · intro x hx; exact hobj _ _ x hx
        · intro polys hpolys
          refine allSix_mapChildren _ _ hpolys ?_
          intro poly hpoly
          refine allSix_updChild _ _ _ hpoly ?_
          intro x hx; exact hobj _ _ x hx

/-- Every Surface in the fused ProfileBody container has six-key
records. -/
theorem writeFusedFaces_allSix (bh zh : String) (angleTol : Rat) :
    ∀ (fs : List Face) (surfs : List XElem) (c : Nat)
      (surfs' : List XElem) (c' : Nat),
      (∀ s ∈ surfs, AllSix s) →
      writeFusedFaces bh zh angleTol fs surfs c = .ok (surfs', c') →
      ∀ s ∈ surfs', AllSix s := by
  intro fs
  induction fs with
  | nil =>
    intro surfs c surfs' c' hg h
    simp only [writeFusedFaces, Except.ok.injEq, Prod.mk.injEq] at h
    obtain ⟨h1, -⟩ := h
    subst h1
    exact hg
  | cons f fsT ih =>
    intro surfs c surfs' c' hg h
    simp only [writeFusedFaces] at h
    split at h
    · exact Except.noConfusion h
    · split at h
      · exact Except.noConfusion h
      · have hgs := faceToDsbxml_goodSurf _ _ _ _ _ _ _ _ (by assumption)
        have hP := allSix_patch _ _ _ hgs.1.1
          (by rw [hgs.1.2.1]; simp) (by assumption)
        refine ih _ _ _ _ ?_ h
        intro s hs
        rcases List.mem_append.1 hs with h1 | h1
        · exact hg s h1
        · rcases List.mem_cons.1 h1 with h2 | h2
          · rw [h2]; exact hP
          · exact ((hgs.2 s h2).1)

theorem writeRooms_allSix (blockHandle : String) (angleTol : Rat) :
    ∀ (rs : List Room) (c : Nat) (zones : List XElem) (rs' : List Room)
      (c' : Nat),
      writeRooms blockHandle angleTol rs c = .ok (zones, rs', c') →
      AllSixL zones := by
  intro rs
  induction rs with
  | nil =>
    intro c zones rs' c' h
    simp only [writeRooms, Except.ok.injEq, Prod.mk.injEq] at h
    obtain ⟨h1, -, -⟩ := h
    subst h1
    exact allSixL_nil
  | cons r rsT ih =>
    intro c zones rs' c' h
    simp only [writeRooms] at h
    split at h
    · exact Except.noConfusion h
    · split at h
      · exact Except.noConfusion h
      · simp only [Except.ok.injEq, Prod.mk.injEq] at h
        obtain ⟨h1, -, -⟩ := h
        subst h1
        exact (allSixL_cons _ _).2
          ⟨roomToDsbxml_allSix _ _ _ _ _ _ _ (by assumption),
           ih _ _ _ _ (by assumption)⟩

theorem blockPhase1_allSix (ext : Ext) (rg : List Room) (bh : Nat)
    (c : Nat) (angleTol : Rat) (out : BlockPhase1Out)
    (h : blockPhase1 ext rg bh c angleTol = .ok out) :
    AllSixL out.zones ∧ ∀ s ∈ out.fusedSurfs, AllSix s := by
  simp only [blockPhase1] at h
  repeat' split at h
  all_goals try exact Except.noConfusion h
  all_goals simp only [Except.ok.injEq] at h
  all_goals subst h
  all_goals exact
    ⟨writeRooms_allSix _ _ _ _ _ _ _ (by assumption),
     fun s hs => writeFusedFaces_allSix _ _ _ _ _ _ _ _
       (fun s2 hs2 => absurd hs2 (List.not_mem_nil s2)) (by assumption) s hs⟩

theorem blockPerimeter_allSix (ext : Ext) (rooms : List Room) (bh : Nat)
    (blockRoomId : String) (blockName : Option String) (c : Nat) :
    AllSix (blockPerimeter ext rooms bh blockRoomId blockName c).1 := by
  rcases hp : ext.groupedHorizontalBoundary rooms with - | ⟨p, ps⟩ <;>
    simp [blockPerimeter, hp, allSix_mk, allSixL_cons, allSixL_append,
      allSixL_nil, allSix_objectIds, allSixL_ptElems]
  exact allSixL_map _ _ (fun hole => by
    simp [allSix_mk, allSixL_cons, allSixL_nil, allSix_objectIds,
      allSixL_ptElems])

/-- Every block element carries only six-key ObjectIDs records. -/
theorem roomGroupToDsbxmlBlock_allSix (ext : Ext) (rg : List Room)
    (bh : Nat) (inB : Bool) (name : Option String) (c : Nat)
    (angleTol : Rat) (blk : XElem) (c' : Nat) (logs : List String)
    (h : roomGroupToDsbxmlBlock ext rg bh inB name c angleTol =
      .ok (blk, c', logs)) : AllSix blk := by
  simp only [roomGroupToDsbxmlBlock] at h
  split at h
  · exact Except.noConfusion h
  · simp only [Except.ok.injEq, Prod.mk.injEq] at h
    obtain ⟨h1, -, -⟩ := h
    subst h1
    have hp := blockPhase1_allSix _ _ _ _ _ _ (by assumption)
    cases inB <;>
      simp [allSix_mk, allSixL_cons, allSixL_append, allSixL_nil,
        allSix_objectIds, allSixL_ptElems] <;>
      exact ⟨hp.1, allSixL_of_each _ hp.2, blockPerimeter_allSix _ _ _ _ _ _⟩

theorem writeBlocks_allSix (ext : Ext) (angleTol : Rat) :
    ∀ (gs : List (List Room × String)) (i c : Nat) (blks : List XElem)
      (c' : Nat) (logs : List String),
      writeBlocks ext angleTol gs i c = .ok (blks, c', logs) →
      AllSixL blks := by
  intro gs
  induction gs with
  | nil =>
    intro i c blks c' logs h
    simp only [writeBlocks, Except.ok.injEq, Prod.mk.injEq] at h
    obtain ⟨h1, -, -⟩ := h
    subst h1
    exact allSixL_nil
  | cons g gsT ih =>
    intro i c blks c' logs h
    simp only [writeBlocks] at h
    split at h
    · exact Except.noConfusion h
    · split at h
      · exact Except.noConfusion h
      · simp only [Except.ok.injEq, Prod.mk.injEq] at h
        obtain ⟨h1, -, -⟩ := h
        subst h1
        exact (allSixL_cons _ _).2
          ⟨roomGroupToDsbxmlBlock_allSix _ _ _ _ _ _ _ _ _ _ (by assumption),
           ih _ _ _ _ _ (by assumption)⟩

theorem assembleDoc_allSix (mn date : String) (blks : List XElem)
    (cF : Nat) (h : AllSixL blks) : AllSix (assembleDoc mn date blks cF) := by
  simp [assembleDoc, XElem.set, dictSet, allSix_mk, allSixL_cons,
    allSixL_nil, allSix_objectIds, XElem.tag, XElem.attrs, XElem.text,
    XElem.children]
  exact h

/-- Every ObjectIDs record anywhere in a successfully converted document
has exactly the six fields. -/
theorem modelConvertCore_allSix (ext : Ext) (m : HBModel) (date : String)
    (doc : XElem) (k : Nat) (logs : List String)
    (h : modelConvertCore ext m date = .ok (doc, k, logs)) : AllSix doc := by
  simp only [modelConvertCore] at h
  split at h
  · exact Except.noConfusion h
  · split at h
    · exact Except.noConfusion h
    · simp only [Except.ok.injEq, Prod.mk.injEq] at h
      obtain ⟨h1, -, -⟩ := h
      subst h1
      exact assembleDoc_allSix _ _ _ _ (writeBlocks_allSix _ _ _ _ _ _ _ _
        (by assumption))

/-! ## Handle collection lemmas

Infrastructure for the handle-uniqueness claim: characterizations of the
`mainHandles` collector (non-sentinel ObjectIDs handles, skipping the
`InnerSurfaceBody` copies) on each writer's output, and a small theory of
"handle segments" (`HS`): lists whose members are either identifier
handles from an allowed set `S` or counter handles from a numeric
interval. -/

theorem mainHandlesL_append (l1 l2 : List XElem) :
    mainHandlesL (l1 ++ l2) = mainHandlesL l1 ++ mainHandlesL l2 := by
  induction l1 with
  | nil => simp [mainHandlesL]
  | cons e es ih => simp [mainHandlesL, ih]

theorem mainHandles_objectIds (h b bl z s o : String) :
    mainHandles (objectIds h b bl z s o) =
      if h = "-1" then [] else [h] := by
  simp [mainHandles, objectIds, dictGet?, mainHandlesL]

theorem mainHandles_mk (t : String) (a : List (String × String))
    (tx : Option String) (cs : List XElem) :
    mainHandles (XElem.mk t a tx cs) =
      (if t = "ObjectIDs" then
        (match dictGet? a "handle" with
         | some h => if h = "-1" then [] else [h]
         | none => [])
       else []) ++
        (if t = "InnerSurfaceBody" then [] else mainHandlesL cs) := rfl

theorem mainHandlesL_ptElems (pts : List Pt3) :
    mainHandlesL (ptElems pts) = [] := by
  induction pts with
  | nil => simp [ptElems, mainHandlesL]
  | cons p ps ih =>
    simp only [ptElems, List.map_cons, mainHandlesL, mainHandles]
    simpa [ptElems] using ih

/-- The non-sentinel handles contributed by one Opening: the opening's
identifier once per geometry hole (writer.py line 55). -/
def subFaceHandles (sf : SubFace) : List String :=
  if sf.identifier = "-1" then []
  else List.replicate sf.holes.length sf.identifier

theorem mainHandles_subFace (sf : SubFace) (ctx : Option SurfCtx) :
    mainHandles (subFaceToDsbxmlElement sf ctx) = subFaceHandles sf := by
  have hrep : ∀ (n : Nat) (h b bl z s o : String),
      mainHandlesL (List.replicate n (objectIds h b bl z s o)) =
        if h = "-1" then [] else List.replicate n h := by
    intro n h b bl z s o
    induction n with
    | zero => simp [mainHandlesL]
    | succ k ih =>
      simp only [List.replicate, mainHandlesL, ih, mainHandles_objectIds]
      by_cases hh : h = "-1" <;> simp [hh]
  have hmapconst : ∀ (hs : List (List Pt3)) (e : XElem),
      (hs.map (fun _ => e)) = List.replicate hs.length e := by
    intro hs e
    induction hs with
    | nil => simp
    | cons x xs ih => simp [List.replicate, ih]
  have hholes : ∀ hs : List (List Pt3),
      mainHandlesL (hs.map (fun h => XElem.mk "PolygonHole" [] none
        [XElem.mk "Vertices" [] none (ptElems h)])) = [] := by
    intro hs
    induction hs with
    | nil => simp [mainHandlesL]
    | cons x xs ih =>
      simp only [List.map_cons, mainHandlesL, mainHandles]
      simpa [mainHandlesL, mainHandlesL_ptElems] using ih
  simp only [subFaceToDsbxmlElement, subFaceHandles]
  simp [mainHandles_mk, mainHandlesL, mainHandlesL_append,
    mainHandles_objectIds, mainHandlesL_ptElems, hholes, hmapconst, hrep]

theorem mainHandles_adjacency (f : Face) (faceType bh zh : String)
    (dsbI : Nat) (holeIs : List Nat) :
    mainHandles (adjacencyElem f faceType bh zh dsbI holeIs) = [] := by
  have hholes : ∀ (l : List (List Pt3 × Nat)) (g : List Pt3 × Nat → XElem),
      (∀ x, mainHandles (g x) = []) → mainHandlesL (l.map g) = [] := by
    intro l g hg
    induction l with
    | nil => simp [mainHandlesL]
    | cons x xs ih => simp [mainHandlesL, hg x, ih]
  cases hbc : f.bc <;>
    simp [adjacencyElem, hbc, mainHandles_mk, mainHandlesL,
      mainHandlesL_append, mainHandles_objectIds, mainHandlesL_ptElems] <;>
    exact hholes _ _ (fun x => by
      simp [mainHandles_mk, mainHandlesL, mainHandles_objectIds,
        mainHandlesL_ptElems, natToString_ne_neg1])

/-- The per-face opening contribution, apertures then doors. -/
def openingHandles (f : Face) : List String :=
  (f.apertures ++ f.doors).flatMap subFaceHandles

theorem mainHandles_mainSurface (f : Face) (angleTol : Rat)
    (bh zh : String) (dsbI : Nat) (ring0 : List Nat)
    (holeIdxText : Option String) (holeIs : List Nat) :
    mainHandles (mainSurface f angleTol bh zh dsbI ring0 holeIdxText
      holeIs) =
      (if f.identifier = "-1" then [] else [f.identifier]) ++
        openingHandles f := by
  have hmaps : ∀ (l : List SubFace) (ctx : Option SurfCtx),
      mainHandlesL (l.map (fun sf => subFaceToDsbxmlElement sf ctx)) =
        l.flatMap subFaceHandles := by
    intro l ctx
    induction l with
    | nil => simp [mainHandlesL]
    | cons sf sfs ih => simp [mainHandlesL, mainHandles_subFace, ih]
  have hobj : mainHandles (((objectIds f.identifier "0" bh zh
      (toString dsbI) "-1").set "zoneHandle" "-1").set "surfaceIndex"
      "-1") = (if f.identifier = "-1" then [] else [f.identifier]) := by
    have h1 : mainHandles (((objectIds f.identifier "0" bh zh
        (toString dsbI) "-1").set "zoneHandle" "-1").set "surfaceIndex"
        "-1") =
        (if f.identifier = "-1" then [] else [f.identifier]) ++
          ([] : List String) := rfl
    rw [h1, List.append_nil]
  have hsurfT : ∀ (a : List (String × String)) (tx : Option String)
      (cs : List XElem),
      mainHandles (XElem.mk "Surface" a tx cs) = mainHandlesL cs :=
    fun a tx cs => rfl
  have hvi : mainHandles
      (XElem.mk "VertexIndices" [] (some (ringJoin ring0)) []) = [] := rfl
  have hhi : mainHandles (XElem.mk "HoleIndices" [] holeIdxText []) =
      [] := rfl
  have hatt : mainHandles (XElem.mk "Attributes" [] none
      [XElem.mk "Attribute" [("key", "Title")] (some f.displayName) [],
       XElem.mk "Attribute" [("key", "gbXMLSurfaceType")]
         (some f.gbxmlType) []]) = [] := rfl
  have hop : mainHandles (XElem.mk "Openings" [] none
      ((f.apertures ++ f.doors).map
        (fun sf => subFaceToDsbxmlElement sf
          (some ⟨bh, zh, toString dsbI⟩)))) =
      mainHandlesL ((f.apertures ++ f.doors).map
        (fun sf => subFaceToDsbxmlElement sf
          (some ⟨bh, zh, toString dsbI⟩))) := rfl
  simp only [mainSurface]
  rw [hsurfT]
  simp only [mainHandlesL, hobj, hvi, hhi, hatt, hop,
    mainHandles_adjacency, hmaps]
  simp [openingHandles]

theorem holeStuffOf_handles (f : Face) (ctx : Option BodyCtx) (c : Nat)
    (angleTol : Rat) (dsbFaceI : Nat) (holeRings : List (List Nat))
    (he : List XElem) (his : List Nat) (c' : Nat)
    (h : holeStuffOf f ctx c angleTol dsbFaceI holeRings =
      .ok (he, his, c')) :
    mainHandlesL he =
      (List.range' c holeRings.length).map (fun n => toString n) ∧
    c' = c + holeRings.length := by
  unfold holeStuffOf at h
  split at h
  · simp only [Except.ok.injEq, Prod.mk.injEq] at h
    obtain ⟨h1, -, h2⟩ := h
    subst h1
    subst h2
    simp [mainHandlesL]
  · exact Except.noConfusion h

/-! ### Exact handle accounting for the member-zone writers -/

theorem synthHoleRings_length : ∀ (cnt : Nat) (hs : List (List Pt3)),
    (synthHoleRings cnt hs).length = hs.length := by
  intro cnt hs
  induction hs generalizing cnt with
  | nil => simp [synthHoleRings]
  | cons h rest ih => simp [synthHoleRings, ih]

/-- The number of hole rings `face_indices` lists for the face.  Any
successful serialization forces this count to 0 (a hole ring aborts at
writer.py lines 146-147), so the counter ranges it contributes to the
accounting below are empty on every successful path; the count is kept
so the equations stay stated uniformly. -/
def faceHoleCount (f : Face) : Nat :=
  match f.parentRings with
  | some rs => rs.length - 1
  | none => f.holes.length

/-- The non-sentinel identifier-derived handles a face itself supplies:
its own identifier and its openings' identifiers. -/
def facePool (f : Face) : List String :=
  (if f.identifier = "-1" then [] else [f.identifier]) ++ openingHandles f

theorem faceToDsbxml_handles (f : Face) (ctx : Option BodyCtx) (c : Nat)
    (angleTol : Rat) (main : XElem) (holes : List XElem) (f' : Face)
    (c' : Nat)
    (h : faceToDsbxmlElement f ctx c angleTol = .ok (main, holes, f', c')) :
    (∃ bh zh dsbI ring0 hit his,
      main = mainSurface f angleTol bh zh dsbI ring0 hit his) ∧
    mainHandles main ++ mainHandlesL holes =
      facePool f ++
        (List.range' c (faceHoleCount f)).map (fun n => toString n) ∧
    c' = c + faceHoleCount f := by
  rcases hpr : f.parentRings with - | rs
  · simp only [faceToDsbxmlElement, hpr] at h
    repeat' split at h
    all_goals try exact Except.noConfusion h
    all_goals simp only [Except.ok.injEq, Prod.mk.injEq] at h
    all_goals obtain ⟨hm, hh, -, hc⟩ := h
    all_goals subst hm
    all_goals subst hh
    all_goals subst hc
    all_goals obtain ⟨hH1, hH2⟩ :=
      holeStuffOf_handles _ _ _ _ _ _ _ _ _ (by assumption)
    all_goals refine ⟨⟨_, _, _, _, _, _, rfl⟩, ?_, ?_⟩
    all_goals simp [mainHandles_mainSurface, hH1, hH2, facePool,
      faceHoleCount, hpr, synthHoleRings_length, List.append_assoc]
  · rcases rs with - | ⟨r0, hr⟩
    · simp only [faceToDsbxmlElement, hpr] at h
      exact Except.noConfusion h
    · simp only [faceToDsbxmlElement, hpr] at h
      repeat' split at h
      all_goals try exact Except.noConfusion h
      all_goals simp only [Except.ok.injEq, Prod.mk.injEq] at h
      all_goals obtain ⟨hm, hh, -, hc⟩ := h
      all_goals subst hm
      all_goals subst hh
      all_goals subst hc
      all_goals obtain ⟨hH1, hH2⟩ :=
        holeStuffOf_handles _ _ _ _ _ _ _ _ _ (by assumption)
      all_goals refine ⟨⟨_, _, _, _, _, _, rfl⟩, ?_, ?_⟩
      all_goals simp [mainHandles_mainSurface, hH1, hH2, facePool,
        faceHoleCount, hpr, List.append_assoc]

/-- The handle list and final counter for a face list written from
counter `c`: per face, its pool entries then the hole-Surface handle
range. -/
def facesHandles : List Face → Nat → List String × Nat
  | [], c => ([], c)
  | f :: fs, c =>
    let rest := facesHandles fs (c + faceHoleCount f)
    (facePool f ++
      (List.range' c (faceHoleCount f)).map (fun n => toString n) ++
      rest.1, rest.2)

theorem writeFaces_handles (bh zh : String) (angleTol : Rat) :
    ∀ (fs : List Face) (surfs : List XElem) (c : Nat)
      (surfs' : List XElem) (fs' : List Face) (c' : Nat),
      writeFaces bh zh angleTol fs surfs c = .ok (surfs', fs', c') →
      mainHandlesL surfs' = mainHandlesL surfs ++ (facesHandles fs c).1 ∧
      c' = (facesHandles fs c).2 := by
  intro fs
  induction fs with
  | nil =>
    intro surfs c surfs' fs' c' h
    simp only [writeFaces, Except.ok.injEq, Prod.mk.injEq] at h
    obtain ⟨h1, -, h2⟩ := h
    subst h1
    subst h2
    simp [facesHandles]
  | cons f fsT ih =>
    intro surfs c surfs' fs' c' h
    simp only [writeFaces] at h
    split at h
    · exact Except.noConfusion h
    · split at h
      · exact Except.noConfusion h
      · simp only [Except.ok.injEq, Prod.mk.injEq] at h
        obtain ⟨h1, -, h2⟩ := h
        subst h1
        subst h2
        obtain ⟨-, hEq, hC⟩ :=
          faceToDsbxml_handles _ _ _ _ _ _ _ _ (by assumption)
        obtain ⟨ih1, ih2⟩ := ih _ _ _ _ _ (by assumption)
        subst hC
        constructor
        · rw [ih1, mainHandlesL_append]
          have hcons : ∀ (e : XElem) (l : List XElem),
              mainHandlesL (e :: l) = mainHandles e ++ mainHandlesL l :=
            fun e l => rfl
          rw [hcons, hEq]
          simp [facesHandles, List.append_assoc]
        · rw [ih2]
          simp [facesHandles]

theorem roomToDsbxml_handles (room : Room) (ctx : Option BlockCtx) (c : Nat)
    (angleTol : Rat) (zone : XElem) (room' : Room) (c' : Nat)
    (h : roomToDsbxmlElement room ctx c angleTol = .ok (zone, room', c')) :
    mainHandles zone =
      (if room.identifier = "-1" then [] else [room.identifier]) ++
        (facesHandles room.faces c).1 ∧
    c' = (facesHandles room.faces c).2 := by
  have hattr : ∀ (o : Option (List (String × String))),
      mainHandlesL
        (match o with
         | some d =>
           match dictGet? d "__identifier__" with
           | some idv =>
             [XElem.mk "Attribute" [("key", "ID")] (some idv) []]
           | none => []
         | none => []) = [] := by
    intro o
    rcases o with - | d
    · rfl
    · rcases hg : dictGet? d "__identifier__" with - | v <;>
        simp [hg, mainHandles_mk, mainHandlesL]
  simp only [roomToDsbxmlElement] at h
  split at h
  · exact Except.noConfusion h
  · simp only [Except.ok.injEq, Prod.mk.injEq] at h
    obtain ⟨hz, -, hc⟩ := h
    subst hz
    subst hc
    obtain ⟨w1, w2⟩ := writeFaces_handles _ _ _ _ _ _ _ _ _ (by assumption)
    refine ⟨?_, by rw [w2]⟩
    have hnil : mainHandlesL ([] : List XElem) = [] := rfl
    rw [hnil, List.nil_append] at w1
    simp [mainHandles_mk, mainHandlesL, mainHandlesL_append,
      mainHandles_objectIds, mainHandlesL_ptElems, hattr, w1]

/-- The handle list and final counter for a room list written from
counter `c`. -/
def roomsHandles : List Room → Nat → List String × Nat
  | [], c => ([], c)
  | r :: rs, c =>
    let fh := facesHandles r.faces c
    let rest := roomsHandles rs fh.2
    ((if r.identifier = "-1" then [] else [r.identifier]) ++ fh.1 ++
      rest.1, rest.2)

theorem writeRooms_handles (bh : String) (angleTol : Rat) :
    ∀ (rooms : List Room) (c : Nat) (zs : List XElem) (rs' : List Room)
      (c' : Nat),
      writeRooms bh angleTol rooms c = .ok (zs, rs', c') →
      mainHandlesL zs = (roomsHandles rooms c).1 ∧
      c' = (roomsHandles rooms c).2 := by
  intro rooms
  induction rooms with
  | nil =>
    intro c zs rs' c' h
    simp only [writeRooms, Except.ok.injEq, Prod.mk.injEq] at h
    obtain ⟨h1, -, h2⟩ := h
    subst h1
    subst h2
    simp [roomsHandles, mainHandlesL]
  | cons r rs ih =>
    intro c zs rs' c' h
    simp only [writeRooms] at h
    split at h
    · exact Except.noConfusion h
    · split at h
      · exact Except.noConfusion h
      · simp only [Except.ok.injEq, Prod.mk.injEq] at h
        obtain ⟨h1, -, h2⟩ := h
        subst h1
        subst h2
        obtain ⟨z1, z2⟩ := roomToDsbxml_handles _ _ _ _ _ _ _ (by assumption)
        obtain ⟨ih1, ih2⟩ := ih _ _ _ _ (by assumption)
        subst z2
        constructor
        · have hcons : ∀ (e : XElem) (l : List XElem),
              mainHandlesL (e :: l) = mainHandles e ++ mainHandlesL l :=
            fun e l => rfl
          rw [hcons, z1, ih1]
          simp [roomsHandles, List.append_assoc]
        · rw [ih2]
          simp [roomsHandles]

/-! ### Exact handle accounting for the fused-face writers -/

theorem mainHandlesL_subFaces (l : List SubFace) (ctx : Option SurfCtx) :
    mainHandlesL (l.map (fun sf => subFaceToDsbxmlElement sf ctx)) =
      l.flatMap subFaceHandles := by
  induction l with
  | nil => simp [mainHandlesL]
  | cons sf sfs ih => simp [mainHandlesL, mainHandles_subFace, ih]

theorem mainHandlesL_map_nil {α : Type} (l : List α) (g : α → XElem)
    (hg : ∀ x, mainHandles (g x) = []) : mainHandlesL (l.map g) = [] := by
  induction l with
  | nil => simp [mainHandlesL]
  | cons x xs ih => simp [mainHandlesL, hg x, ih]

set_option maxHeartbeats 1000000 in
/-- The in-place patch of a written fused Surface never touches the
surviving non-sentinel handles: the Surface's own ObjectIDs keeps the
face identifier and every handle the patch nulls was already `'-1'`. -/
theorem patchFused_handles (f : Face) (angleTol : Rat) (bh zh : String)
    (dsbI : Nat) (ring0 : List Nat) (hit : Option String) (his : List Nat)
    (fp : Face) (e' : XElem)
    (h : patchFusedSurface
      (mainSurface f angleTol bh zh dsbI ring0 hit his) fp = .ok e') :
    mainHandles e' =
      mainHandles (mainSurface f angleTol bh zh dsbI ring0 hit his) := by
  simp only [patchFusedSurface] at h
  split at h
  · exact Except.noConfusion h
  · split at h
    · exact Except.noConfusion h
    · simp only [Except.ok.injEq] at h
      subst h
      cases hbc : f.bc <;>
        simp [mainSurface, patchAdjacency, adjacencyElem, hbc, XElem.set,
          XElem.updChild, XElem.mapChildren, updFirstTag, XElem.tag,
          XElem.attrs, XElem.text, XElem.children, objectIds, dictSet,
          dictGet?, mainHandles_mk, mainHandlesL, mainHandlesL_append,
          mainHandlesL_ptElems, mainHandlesL_subFaces]

theorem matchBlockFaces_handles (ext : Ext) (roomsUpd : List Room) :
    ∀ (fs : List Face) (c : Nat) (fs' : List Face) (c' : Nat),
      matchBlockFaces ext roomsUpd fs c = .ok (fs', c') →
      fs'.map (fun g => g.identifier) =
        (List.range' c fs.length).map (fun n => toString n) ∧
      (∀ g ∈ fs', openingHandles g = []) ∧
      c' = c + fs.length := by
  intro fs
  induction fs with
  | nil =>
    intro c fs' c' h
    simp only [matchBlockFaces, Except.ok.injEq, Prod.mk.injEq] at h
    obtain ⟨h1, h2⟩ := h
    subst h1
    subst h2
    simp
  | cons f fsT ih =>
    intro c fs' c' h
    simp only [matchBlockFaces] at h
    split at h
    · exact Except.noConfusion h
    · split at h
      · exact Except.noConfusion h
      · simp only [Except.ok.injEq, Prod.mk.injEq] at h
        obtain ⟨h1, h2⟩ := h
        subst h1
        subst h2
        obtain ⟨ih1, ih2, ih3⟩ := ih _ _ _ (by assumption)
        refine ⟨?_, ?_, ?_⟩
        · simp [List.range', ih1]
        · intro g hg
          rcases List.mem_cons.1 hg with h3 | h3
          · subst h3; simp [openingHandles]
          · exact ih2 g h3
        · rw [ih3, List.length_cons]; omega

theorem writeFusedFaces_handles (bh zh : String) (angleTol : Rat) :
    ∀ (fs : List Face) (surfs : List XElem) (c : Nat)
      (surfs' : List XElem) (c' : Nat),
      writeFusedFaces bh zh angleTol fs surfs c = .ok (surfs', c') →
      mainHandlesL surfs' = mainHandlesL surfs ++ (facesHandles fs c).1 ∧
      c' = (facesHandles fs c).2 := by
  intro fs
  induction fs with
  | nil =>
    intro surfs c surfs' c' h
    simp only [writeFusedFaces, Except.ok.injEq, Prod.mk.injEq] at h
    obtain ⟨h1, h2⟩ := h
    subst h1
    subst h2
    simp [facesHandles]
  | cons f fsT ih =>
    intro surfs c surfs' c' h
    simp only [writeFusedFaces] at h
    rcases hface : faceToDsbxmlElement f (some ⟨bh, zh, surfs⟩) c angleTol
      with e | ⟨main, holes, f2, c2⟩
    · simp only [hface] at h
      exact Except.noConfusion h
    · simp only [hface] at h
      rcases hpatch : patchFusedSurface main f2 with e | mainP
      · simp only [hpatch] at h
        exact Except.noConfusion h
      · simp only [hpatch] at h
        obtain ⟨⟨bh', zh', dsbI', ring0, hit', his', hmain⟩, hEq, hC⟩ :=
          faceToDsbxml_handles _ _ _ _ _ _ _ _ hface
        obtain ⟨ih1, ih2⟩ := ih _ _ _ _ h
        subst hC
        rw [hmain] at hpatch
        have hpm := patchFused_handles _ _ _ _ _ _ _ _ _ _ hpatch
        rw [← hmain] at hpm
        constructor
        · rw [ih1, mainHandlesL_append]
          have hcons : ∀ (e : XElem) (l : List XElem),
              mainHandlesL (e :: l) = mainHandles e ++ mainHandlesL l :=
            fun e l => rfl
          rw [hcons, hpm, hEq]
          simp [facesHandles, List.append_assoc]
        · rw [ih2]
          simp [facesHandles]

theorem blockPerimeter_handles (ext : Ext) (rooms : List Room)
    (bh : Nat) (brId : String) (name : Option String) (c : Nat) :
    mainHandles (blockPerimeter ext rooms bh brId name c).1 =
      (List.range' c ((blockPerimeter ext rooms bh brId name c).2.1 - c)).map
        (fun n => toString n) ∧
    c ≤ (blockPerimeter ext rooms bh brId name c).2.1 ∧
    (blockPerimeter ext rooms bh brId name c).2.1 ≤ c + 1 := by
  rcases hgb : ext.groupedHorizontalBoundary rooms with - | ⟨p, rest⟩
  · simp [blockPerimeter, hgb, mainHandles_mk, mainHandlesL]
  · refine ⟨?_, by simp [blockPerimeter, hgb], by simp [blockPerimeter, hgb]⟩
    have hmap : mainHandlesL (p.holes.map (fun h =>
        XElem.mk "PolygonHole" [] none
          [objectIds "-1" "-1" "-1" "-1" "-1" "-1",
           XElem.mk "Vertices" [] none (ptElems h)])) = [] :=
      mainHandlesL_map_nil _ _ (fun x => by
        simp [mainHandles_mk, mainHandlesL, mainHandles_objectIds,
          mainHandlesL_ptElems])
    simp [blockPerimeter, hgb, mainHandles_mk, mainHandlesL,
      mainHandlesL_append, mainHandles_objectIds, mainHandlesL_ptElems,
      natToString_ne_neg1, hmap, List.range']

/-! ### The handle-set invariant

`HS S P l` says the handle list `l` has no duplicates and every entry is
either drawn from the identifier pool `S` or is the decimal rendering of a
counter value satisfying `P`. -/

def HS (S : List String) (P : Nat → Prop) (l : List String) : Prop :=
  l.Nodup ∧ ∀ s ∈ l, s ∈ S ∨ ∃ n, toString n = s ∧ P n

theorem HS.nil (S : List String) (P : Nat → Prop) : HS S P [] :=
  ⟨List.nodup_nil, by simp⟩

theorem HS.of_self (S : List String) (P : Nat → Prop) (hN : S.Nodup) :
    HS S P S :=
  ⟨hN, fun s hs => Or.inl hs⟩

theorem HS.singleton (S : List String) (P : Nat → Prop) (n : Nat)
    (hP : P n) : HS S P [toString n] :=
  ⟨List.nodup_singleton _, fun s hs => Or.inr ⟨n, (List.mem_singleton.1 hs).symm, hP⟩⟩

theorem HS.mono (S S' : List String) (P P' : Nat → Prop) (l : List String)
    (h : HS S P l) (hS : ∀ s ∈ S, s ∈ S') (hP : ∀ n, P n → P' n) :
    HS S' P' l := by
  refine ⟨h.1, fun s hs => ?_⟩
  rcases h.2 s hs with h1 | ⟨n, hn, hPn⟩
  · exact Or.inl (hS s h1)
  · exact Or.inr ⟨n, hn, hP n hPn⟩

theorem HS.append (S1 S2 : List String) (P1 P2 : Nat → Prop)
    (l1 l2 : List String) (h1 : HS S1 P1 l1) (h2 : HS S2 P2 l2)
    (hSS : ∀ s ∈ S1, s ∉ S2)
    (hPP : ∀ n, P1 n → P2 n → False)
    (hPS : ∀ n, P1 n → toString n ∉ S2)
    (hSP : ∀ n, P2 n → toString n ∉ S1) :
    HS (S1 ++ S2) (fun n => P1 n ∨ P2 n) (l1 ++ l2) := by
  constructor
  · refine List.Nodup.append h1.1 h2.1 ?_
    intro s hs1 hs2
    rcases h1.2 s hs1 with hA | ⟨m, hm, hPm⟩
    · rcases h2.2 s hs2 with hB | ⟨n, hn, hPn⟩
      · exact hSS s hA hB
      · exact hSP n hPn (hn ▸ hA)
    · rcases h2.2 s hs2 with hB | ⟨n, hn, hPn⟩
      · exact hPS m hPm (hm ▸ hB)
      · have hmn : m = n := natToString_injective m n (by rw [hm, hn])
        exact hPP m hPm (hmn ▸ hPn)
  · intro s hs
    rcases List.mem_append.1 hs with hA | hB
    · rcases h1.2 s hA with h | ⟨n, hn, hP⟩
      · exact Or.inl (List.mem_append_left _ h)
      · exact Or.inr ⟨n, hn, Or.inl hP⟩
    · rcases h2.2 s hB with h | ⟨n, hn, hP⟩
      · exact Or.inl (List.mem_append_right _ h)
      · exact Or.inr ⟨n, hn, Or.inr hP⟩

theorem HS.range : ∀ (k lo : Nat),
    HS [] (fun n => lo ≤ n ∧ n < lo + k)
      ((List.range' lo k).map (fun n => toString n)) := by
  intro k
  induction k with
  | zero =>
    intro lo
    simp only [List.range', List.map_nil]
    exact HS.nil _ _
  | succ k ih =>
    intro lo
    obtain ⟨hN, hM⟩ := ih (lo + 1)
    simp only [List.range', List.map_cons]
    constructor
    · refine List.nodup_cons.2 ⟨?_, hN⟩
      intro hmem
      rcases hM _ hmem with h | ⟨n, hn, hlo, -⟩
      · exact absurd h (List.not_mem_nil _)
      · have := natToString_injective n lo hn
        omega
    · intro s hs
      rcases List.mem_cons.1 hs with h | h
      · exact Or.inr ⟨lo, h.symm, le_refl _, by omega⟩
      · rcases hM s h with h1 | ⟨n, hn, h2, h3⟩
        · exact absurd h1 (List.not_mem_nil _)
        · exact Or.inr ⟨n, hn, by omega, by omega⟩

theorem toString_notin_of_lt (S : List String) (lo : Nat)
    (hS : ∀ s ∈ S, ∃ m, toString m = s ∧ m < lo) (n : Nat) (hn : lo ≤ n) :
    toString n ∉ S := by
  intro hmem
  obtain ⟨m, hm, hml⟩ := hS _ hmem
  have := natToString_injective m n hm
  omega

/-! ### Pools and the per-writer `HS` facts -/

/-- The identifier-derived handles a room supplies: its own identifier and
its faces' pools. -/
def roomPool (r : Room) : List String :=
  (if r.identifier = "-1" then [] else [r.identifier]) ++
    r.faces.flatMap facePool

theorem facesHandles_HS (fs : List Face) :
    ∀ (c : Nat),
      (fs.flatMap facePool).Nodup →
      (∀ s ∈ fs.flatMap facePool, ∃ m, toString m = s ∧ m < c) →
      HS (fs.flatMap facePool)
        (fun n => c ≤ n ∧ n < (facesHandles fs c).2)
        (facesHandles fs c).1 ∧
      c ≤ (facesHandles fs c).2 := by
  induction fs with
  | nil =>
    intro c hN hB
    simp only [facesHandles]
    exact ⟨HS.nil _ _, le_refl c⟩
  | cons f fsT ih =>
    intro c hN hB
    simp only [List.flatMap_cons, List.nodup_append] at hN
    obtain ⟨hN1, hN2, hDisj⟩ := hN
    have hB1 : ∀ s ∈ facePool f, ∃ m, toString m = s ∧ m < c := by
      intro s hs
      exact hB s (by simp [List.flatMap_cons, hs])
    have hB2s : ∀ s ∈ fsT.flatMap facePool,
        ∃ m, toString m = s ∧ m < c := by
      intro s hs
      exact hB s (by simp [List.flatMap_cons, hs])
    have hB2 : ∀ s ∈ fsT.flatMap facePool,
        ∃ m, toString m = s ∧ m < c + faceHoleCount f := by
      intro s hs
      obtain ⟨m, hm, hml⟩ := hB2s s hs
      exact ⟨m, hm, by omega⟩
    obtain ⟨ihHS, ihLe⟩ := ih (c + faceHoleCount f) hN2 hB2
    have chunk1 : HS (facePool f)
        (fun n => c ≤ n ∧ n < c + faceHoleCount f)
        (facePool f ++ (List.range' c (faceHoleCount f)).map
          (fun n => toString n)) := by
      have hap := HS.append (facePool f) [] (fun _ => False)
        (fun n => c ≤ n ∧ n < c + faceHoleCount f) (facePool f) _
        (HS.of_self _ _ hN1) (HS.range (faceHoleCount f) c)
        (fun s _ h => List.not_mem_nil s h)
        (fun n h => absurd h not_false)
        (fun n h => absurd h not_false)
        (fun n hn => toString_notin_of_lt _ c hB1 n hn.1)
      refine HS.mono _ _ _ _ _ hap (fun s hs => ?_) (fun n hn => ?_)
      · simpa using hs
      · rcases hn with h | h
        · exact absurd h not_false
        · exact h
    have hcomb := HS.append (facePool f) (fsT.flatMap facePool)
      (fun n => c ≤ n ∧ n < c + faceHoleCount f)
      (fun n => c + faceHoleCount f ≤ n ∧ n < (facesHandles fsT
        (c + faceHoleCount f)).2) _ _ chunk1 ihHS
      hDisj
      (fun n h1 h2 => by omega)
      (fun n hn => toString_notin_of_lt _ c hB2s n (by omega))
      (fun n hn => toString_notin_of_lt _ c hB1 n (by omega))
    constructor
    · simp only [facesHandles, List.flatMap_cons]
      refine HS.mono _ _ _ _ _ hcomb (fun s hs => hs) (fun n hn => ?_)
      · rcases hn with ⟨h1, h2⟩ | ⟨h1, h2⟩ <;> exact ⟨by omega, by omega⟩
    · simp only [facesHandles]
      omega

theorem roomsHandles_HS (rooms : List Room) :
    ∀ (c : Nat),
      (rooms.flatMap roomPool).Nodup →
      (∀ s ∈ rooms.flatMap roomPool, ∃ m, toString m = s ∧ m < c) →
      HS (rooms.flatMap roomPool)
        (fun n => c ≤ n ∧ n < (roomsHandles rooms c).2)
        (roomsHandles rooms c).1 ∧
      c ≤ (roomsHandles rooms c).2 := by
  induction rooms with
  | nil =>
    intro c hN hB
    simp only [roomsHandles]
    exact ⟨HS.nil _ _, le_refl c⟩
  | cons r rsT ih =>
    intro c hN hB
    simp only [List.flatMap_cons, roomPool, List.append_assoc,
      List.nodup_append] at hN
    obtain ⟨hNid, hNf, hNr, hDisjF, hDisjI⟩ :
        ((if r.identifier = "-1" then [] else [r.identifier]).Nodup ∧
         (r.faces.flatMap facePool).Nodup ∧
         (rsT.flatMap roomPool).Nodup ∧
         (∀ s ∈ r.faces.flatMap facePool, s ∉ rsT.flatMap roomPool) ∧
         (∀ s ∈ (if r.identifier = "-1" then [] else [r.identifier]),
           s ∉ r.faces.flatMap facePool ∧ s ∉ rsT.flatMap roomPool)) := by
      obtain ⟨a, b, d⟩ := hN
      obtain ⟨b1, b2, b3⟩ := b
      refine ⟨a, b1, b2, b3, fun s hs => ?_⟩
      exact ⟨fun hmem => d hs (List.mem_append_left _ hmem),
        fun hmem => d hs (List.mem_append_right _ hmem)⟩
    have hBid : ∀ s ∈ (if r.identifier = "-1" then [] else [r.identifier]),
        ∃ m, toString m = s ∧ m < c := by
      intro s hs
      exact hB s (by simp [List.flatMap_cons, roomPool, hs])
    have hBf : ∀ s ∈ r.faces.flatMap facePool,
        ∃ m, toString m = s ∧ m < c := by
      intro s hs
      exact hB s (by simp [List.flatMap_cons, roomPool, hs])
    have hBrs : ∀ s ∈ rsT.flatMap roomPool,
        ∃ m, toString m = s ∧ m < c := by
      intro s hs
      exact hB s (by simp [List.flatMap_cons, hs])
    have hBr : ∀ s ∈ rsT.flatMap roomPool,
        ∃ m, toString m = s ∧ m < (facesHandles r.faces c).2 := by
      intro s hs
      obtain ⟨m, hm, hml⟩ := hBrs s hs
      have hle := (facesHandles_HS r.faces c hNf hBf).2
      exact ⟨m, hm, by omega⟩
    obtain ⟨fHS, fLe⟩ := facesHandles_HS r.faces c hNf hBf
    obtain ⟨ihHS, ihLe⟩ := ih (facesHandles r.faces c).2 hNr hBr
    have chunkId : HS (if r.identifier = "-1" then [] else [r.identifier])
        (fun _ => False)
        (if r.identifier = "-1" then [] else [r.identifier]) :=
      HS.of_self _ _ hNid
    have hc1 := HS.append _ _ _ _ _ _ chunkId fHS
      (fun s hs => (hDisjI s hs).1)
      (fun n h _ => absurd h not_false)
      (fun n h => absurd h not_false)
      (fun n hn => toString_notin_of_lt _ c hBid n hn.1)
    have hc2 := HS.append _ _ _ _ _ _ hc1 ihHS
      (fun s hs => by
        rcases List.mem_append.1 hs with h | h
        · exact (hDisjI s h).2
        · exact hDisjF s h)
      (fun n h1 h2 => by
        rcases h1 with h | h
        · exact absurd h not_false
        · omega)
      (fun n hn => by
        rcases hn with h | h
        · exact absurd h not_false
        · exact toString_notin_of_lt _ c hBrs n (by omega))
      (fun n hn => by
        intro hmem
        rcases List.mem_append.1 hmem with h | h
        · exact toString_notin_of_lt _ c hBid n (by omega) h
        · exact toString_notin_of_lt _ c hBf n (by omega) h)
    constructor
    · simp only [roomsHandles, List.flatMap_cons, roomPool]
      refine HS.mono _ _ _ _ _ hc2 (fun s hs => ?_) (fun n hn => ?_)
      · simpa [List.append_assoc] using hs
      · rcases hn with (h | ⟨h1, h2⟩) | ⟨h1, h2⟩
        · exact absurd h not_false
        · exact ⟨by omega, by omega⟩
        · exact ⟨by omega, by omega⟩
    · simp only [roomsHandles]
      omega

/-! ### Block-level handle accounting -/

theorem toString_ne_of_ne (m n : Nat) (h : m ≠ n) :
    toString m ≠ toString n :=
  fun he => h (natToString_injective m n he)

theorem HS.absorb (S : List String) (P Q : Nat → Prop) (l : List String)
    (h : HS S P l) (hQ : ∀ s ∈ S, ∃ n, toString n = s ∧ Q n)
    (hP : ∀ n, P n → Q n) : HS [] Q l := by
  refine ⟨h.1, fun s hs => ?_⟩
  rcases h.2 s hs with h1 | ⟨n, hn, hPn⟩
  · obtain ⟨n, hn, hQn⟩ := hQ s h1
    exact Or.inr ⟨n, hn, hQn⟩
  · exact Or.inr ⟨n, hn, hP n hPn⟩

theorem matched_facePool : ∀ (fs : List Face) (a : Nat),
    fs.map (fun x => x.identifier) =
      (List.range' a fs.length).map (fun n => toString n) →
    (∀ x ∈ fs, openingHandles x = []) →
    fs.flatMap facePool =
      (List.range' a fs.length).map (fun n => toString n) := by
  intro fs
  induction fs with
  | nil => intro a _ _; simp
  | cons f fsT ih =>
    intro a hids hop
    simp only [List.length_cons, List.range', List.map_cons,
      List.cons.injEq] at hids
    obtain ⟨hid, hrest⟩ := hids
    simp only [List.flatMap_cons, List.length_cons, List.range',
      List.map_cons]
    rw [facePool, hid, if_neg (natToString_ne_neg1 a),
      hop f (List.mem_cons_self f fsT), List.append_nil,
      ih (a + 1) hrest (fun x hx => hop x (List.mem_cons_of_mem f hx))]
    rfl

theorem blockPhase1_handles (ext : Ext) (g : List Room) (bh : Nat)
    (c : Nat) (angleTol : Rat) (out : BlockPhase1Out)
    (h : blockPhase1 ext g bh c angleTol = .ok out) :
    mainHandlesL out.zones = (roomsHandles g (c + 1)).1 ∧
    out.blockRoom.identifier = toString c ∧
    (∀ x ∈ out.blockRoom.faces, openingHandles x = []) ∧
    out.blockRoom.faces.map (fun x => x.identifier) =
      (List.range' (roomsHandles g (c + 1)).2
        out.blockRoom.faces.length).map (fun n => toString n) ∧
    mainHandlesL out.fusedSurfs =
      (facesHandles out.blockRoom.faces
        ((roomsHandles g (c + 1)).2 + out.blockRoom.faces.length)).1 ∧
    out.c = (facesHandles out.blockRoom.faces
        ((roomsHandles g (c + 1)).2 + out.blockRoom.faces.length)).2 := by
  simp only [blockPhase1] at h
  repeat' split at h
  all_goals try exact Except.noConfusion h
  all_goals simp only [Except.ok.injEq] at h
  all_goals subst h
  all_goals obtain ⟨w1, w2⟩ := writeRooms_handles _ _ _ _ _ _ _ (by assumption)
  all_goals obtain ⟨m1, m2, m3⟩ := matchBlockFaces_handles _ _ _ _ _ _ (by assumption)
  all_goals obtain ⟨f1, f2⟩ := writeFusedFaces_handles _ _ _ _ _ _ _ _ (by assumption)
  all_goals subst w2
  all_goals simp only at m1 m2 m3 f1 f2 ⊢
  all_goals have hlen := congrArg List.length m1
  all_goals simp only [List.length_map, List.length_range'] at hlen
  all_goals subst m3
  all_goals have hnil : mainHandlesL ([] : List XElem) = [] := rfl
  all_goals rw [hnil, List.nil_append] at f1
  all_goals rw [hlen]
  all_goals exact ⟨w1, trivial, m2, m1, f1, f2⟩

set_option maxHeartbeats 1000000 in
/-- On success, the handles reachable from a written block element (its
`InnerSurfaceBody` subtrees excluded) are the block handle, the group's
identifier pool, and counter values allocated in `[c, c')`, with no
duplicates among them. -/
theorem roomGroupToDsbxmlBlock_HS (ext : Ext) (g : List Room) (bh : Nat)
    (inB : Bool) (name : Option String) (c : Nat) (angleTol : Rat)
    (blk : XElem) (c' : Nat) (logs : List String)
    (h : roomGroupToDsbxmlBlock ext g bh inB name c angleTol =
      .ok (blk, c', logs))
    (hN : (g.flatMap roomPool).Nodup)
    (hB : ∀ s ∈ g.flatMap roomPool, ∃ m, toString m = s ∧ m < c)
    (hbh : toString bh ∉ g.flatMap roomPool)
    (hbhc : bh < c) :
    HS (toString bh :: g.flatMap roomPool)
      (fun n => c ≤ n ∧ n < c') (mainHandles blk) ∧ c ≤ c' := by
  simp only [roomGroupToDsbxmlBlock] at h
  split at h
  · exact Except.noConfusion h
  · rename_i out hph
    simp only [Except.ok.injEq, Prod.mk.injEq] at h
    obtain ⟨hblk, hc', -⟩ := h
    obtain ⟨p1, p2, p3, p4, p5, p6⟩ := blockPhase1_handles _ _ _ _ _ _ hph
    obtain ⟨q1, q2, q3⟩ := blockPerimeter_handles ext out.roomsUpd bh
      out.blockRoom.identifier name out.c
    have hB1 : ∀ s ∈ g.flatMap roomPool,
        ∃ m, toString m = s ∧ m < c + 1 := by
      intro s hs
      obtain ⟨m, hm, hml⟩ := hB s hs
      exact ⟨m, hm, by omega⟩
    obtain ⟨zHS, zLe⟩ := roomsHandles_HS g (c + 1) hN hB1
    rw [← p1] at zHS
    have hfpool : out.blockRoom.faces.flatMap facePool =
        (List.range' (roomsHandles g (c + 1)).2
          out.blockRoom.faces.length).map (fun n => toString n) :=
      matched_facePool _ _ p4 p3
    have hfN : (out.blockRoom.faces.flatMap facePool).Nodup := by
      rw [hfpool]
      exact (HS.range _ _).1
    have hfB : ∀ s ∈ out.blockRoom.faces.flatMap facePool,
        ∃ m, toString m = s ∧
          m < (roomsHandles g (c + 1)).2 + out.blockRoom.faces.length := by
      intro s hs
      rw [hfpool] at hs
      rcases (HS.range out.blockRoom.faces.length
          (roomsHandles g (c + 1)).2).2 s hs with h1 | ⟨n, hn, h2, h3⟩
      · exact absurd h1 (List.not_mem_nil _)
      · exact ⟨n, hn, by omega⟩
    obtain ⟨fHS0, fLe⟩ := facesHandles_HS out.blockRoom.faces
      ((roomsHandles g (c + 1)).2 + out.blockRoom.faces.length) hfN hfB
    have fHS1 := HS.absorb _ _
      (fun n => (roomsHandles g (c + 1)).2 ≤ n ∧
        n < (facesHandles out.blockRoom.faces
          ((roomsHandles g (c + 1)).2 + out.blockRoom.faces.length)).2) _
      fHS0
      (fun s hs => by
        rw [hfpool] at hs
        rcases (HS.range out.blockRoom.faces.length
            (roomsHandles g (c + 1)).2).2 s hs with h1 | ⟨n, hn, h2, h3⟩
        · exact absurd h1 (List.not_mem_nil _)
        · exact ⟨n, hn, h2, by omega⟩)
      (fun n hn => ⟨by omega, hn.2⟩)
    rw [← p5, ← p6] at fHS1
    rw [← p6] at fLe
    have pHS : HS [] (fun n => out.c ≤ n ∧
        n < (blockPerimeter ext out.roomsUpd bh out.blockRoom.identifier
          name out.c).2.1)
        (mainHandles (blockPerimeter ext out.roomsUpd bh
          out.blockRoom.identifier name out.c).1) := by
      rw [q1]
      refine HS.mono _ _ _ _ _
        (HS.range ((blockPerimeter ext out.roomsUpd bh
          out.blockRoom.identifier name out.c).2.1 - out.c) out.c)
        (fun s hs => hs) (fun n hn => ⟨hn.1, by omega⟩)
    have hml : mainHandles blk =
        toString bh :: (mainHandlesL out.zones ++
          (toString c :: (mainHandlesL out.fusedSurfs ++
            mainHandles (blockPerimeter ext out.roomsUpd bh
              out.blockRoom.identifier name out.c).1))) := by
      subst hblk
      cases inB <;>
        simp [mainHandles_mk, mainHandlesL, mainHandlesL_append,
          mainHandles_objectIds, natToString_ne_neg1, mainHandlesL_ptElems,
          p2]
    have hDE := HS.append [] [] _ _ _ _ fHS1 pHS
      (fun s hs => absurd hs (List.not_mem_nil s))
      (fun n h1 h2 => by omega)
      (fun n _ => List.not_mem_nil _)
      (fun n _ => List.not_mem_nil _)
    have hCDE := HS.append [] [] (fun n => n = c) _ _ _
      (HS.singleton [] (fun n => n = c) c rfl) hDE
      (fun s hs => absurd hs (List.not_mem_nil s))
      (fun n h1 h2 => by rcases h2 with h2 | h2 <;> omega)
      (fun n _ => List.not_mem_nil _)
      (fun n _ => List.not_mem_nil _)
    have hBCDE := HS.append (g.flatMap roomPool) [] _ _ _ _ zHS hCDE
      (fun s _ => List.not_mem_nil s)
      (fun n h1 h2 => by
        rcases h2 with h2 | h2 | h2 <;> omega)
      (fun n _ => List.not_mem_nil _)
      (fun n hn => toString_notin_of_lt _ c hB n (by
        rcases hn with h2 | h2 | h2 <;> omega))
    have hABCDE := HS.append [toString bh] (g.flatMap roomPool ++ [])
      (fun _ => False) _ _ _
      (HS.of_self [toString bh] (fun _ => False) (List.nodup_singleton _))
      hBCDE
      (fun s hs => by
        rw [List.mem_singleton] at hs
        subst hs
        intro hmem
        rcases List.mem_append.1 hmem with h1 | h1
        · exact hbh h1
        · exact List.not_mem_nil _ h1)
      (fun n h1 _ => h1)
      (fun n h1 => absurd h1 not_false)
      (fun n hn hmem => by
        rw [List.mem_singleton] at hmem
        have := natToString_injective n bh hmem
        rcases hn with h2 | h2 | h2 | h2 <;> omega)
    rw [hml]
    subst hc'
    constructor
    · refine HS.mono _ _ _ _ _ hABCDE (fun s hs => ?_) (fun n hn => ?_)
      · simp only [List.cons_append, List.nil_append, List.append_nil] at hs ⊢
        simpa using hs
      · rcases hn with h2 | h2 | h2 | h2 | h2
        · exact absurd h2 not_false
        · exact ⟨by omega, by omega⟩
        · exact ⟨by omega, by omega⟩
        · exact ⟨by omega, by omega⟩
        · exact ⟨by omega, by omega⟩
    · omega

/-! ### Model-level handle accounting -/

/-- The identifier pool of the ordered block list started at 0-based
index `i`: each block contributes its handle `i + 1` and its rooms'
pools. -/
def blocksPool : List (List Room × String) → Nat → List String
  | [], _ => []
  | g :: gs, i =>
    toString (i + 1) :: (g.1.flatMap roomPool ++ blocksPool gs (i + 1))

theorem writeBlocks_HS (ext : Ext) (angleTol : Rat) :
    ∀ (gs : List (List Room × String)) (i c : Nat) (blks : List XElem)
      (c' : Nat) (logs : List String),
      writeBlocks ext angleTol gs i c = .ok (blks, c', logs) →
      (blocksPool gs i).Nodup →
      (∀ s ∈ blocksPool gs i, ∃ m, toString m = s ∧ m < c) →
      i + gs.length < c →
      HS (blocksPool gs i) (fun n => c ≤ n ∧ n < c')
        (mainHandlesL blks) ∧ c ≤ c' := by
  intro gs
  induction gs with
  | nil =>
    intro i c blks c' logs h hN hB hic
    simp only [writeBlocks, Except.ok.injEq, Prod.mk.injEq] at h
    obtain ⟨h1, h2, -⟩ := h
    subst h1
    subst h2
    exact ⟨⟨List.nodup_nil, by simp [mainHandlesL]⟩, le_refl c⟩
  | cons g gsT ih =>
    intro i c blks c' logs h hN hB hic
    simp only [writeBlocks] at h
    split at h
    · exact Except.noConfusion h
    · split at h
      · exact Except.noConfusion h
      · simp only [Except.ok.injEq, Prod.mk.injEq] at h
        obtain ⟨h1, h2, -⟩ := h
        subst h1
        subst h2
        simp only [blocksPool, List.nodup_cons, List.nodup_append] at hN
        obtain ⟨hhead, hNk, hNr, hdisj⟩ := hN
        have hBk : ∀ s ∈ g.1.flatMap roomPool,
            ∃ m, toString m = s ∧ m < c := by
          intro s hs
          exact hB s (by simp [blocksPool, hs])
        have hBr : ∀ s ∈ blocksPool gsT (i + 1),
            ∃ m, toString m = s ∧ m < c := by
          intro s hs
          exact hB s (by simp [blocksPool, hs])
        have hbhk : toString (i + 1) ∉ g.1.flatMap roomPool := by
          intro hmem
          exact hhead (List.mem_append_left _ hmem)
        obtain ⟨bHS, bLe⟩ := roomGroupToDsbxmlBlock_HS ext g.1 (i + 1)
          true (some g.2) c angleTol _ _ _ (by assumption) hNk hBk hbhk
          (by simp at hic; omega)
        obtain ⟨rHS, rLe⟩ := ih (i + 1) _ _ _ _ (by assumption) hNr
          (fun s hs => by
            obtain ⟨m, hm, hml⟩ := hBr s hs
            exact ⟨m, hm, by omega⟩)
          (by simp at hic ⊢; omega)
        have hS1b : ∀ s ∈ toString (i + 1) :: g.1.flatMap roomPool,
            ∃ m, toString m = s ∧ m < c := by
          intro s hs
          rcases List.mem_cons.1 hs with h3 | h3
          · exact ⟨i + 1, h3.symm, by simp at hic; omega⟩
          · exact hBk s h3
        have hcomb := HS.append _ _ _ _ _ _ bHS rHS
          (fun s hs => by
            rcases List.mem_cons.1 hs with h3 | h3
            · subst h3
              intro hmem
              exact hhead (List.mem_append_right _ hmem)
            · exact hdisj h3)
          (fun n hn1 hn2 => by omega)
          (fun n hn => toString_notin_of_lt _ c hBr n (by omega))
          (fun n hn => toString_notin_of_lt _ c hS1b n (by omega))
        have hcons : ∀ (e : XElem) (l : List XElem),
            mainHandlesL (e :: l) = mainHandles e ++ mainHandlesL l :=
          fun e l => rfl
        rw [hcons]
        constructor
        · refine HS.mono _ _ _ _ _ hcomb (fun s hs => ?_) (fun n hn => ?_)
          · simp only [blocksPool]
            simpa using hs
          · rcases hn with h3 | h3 <;> exact ⟨by omega, by omega⟩
        · omega

/-- The skeleton contributes exactly the Building's `'0'` handle before
the block subtrees (the Site handle is a plain attribute, not an
`ObjectIDs` record). -/
theorem assembleDoc_mainHandles (name date : String) (blks : List XElem)
    (cF : Nat) :
    mainHandles (assembleDoc name date blks cF) =
      "0" :: mainHandlesL blks := by
  simp [assembleDoc, XElem.set, mainHandles_mk, mainHandlesL,
    mainHandlesL_append, objectIds, dictGet?, dictSet, XElem.tag,
    XElem.attrs, XElem.text, XElem.children]

/-- Writer.py lines 541-542 as seen by the block loop: the partitioned
groups after the in-place integer identifier rewrite. -/
def resetGroups (ext : Ext) (m6 : HBModel) : List (List Room × String) :=
  (blockPartition ext m6.rooms).map
    (fun g => (g.1.map ext.resetRoomIds, g.2))

/-- The full identifier pool of a normalized model: block handles plus
the rewritten room/face/sub-face identifiers, in document order. -/
def modelIdPool (ext : Ext) (m6 : HBModel) : List String :=
  blocksPool (resetGroups ext m6) 0

/-- The last integer handed out by `reset_ids_to_integers`
(writer.py line 541). -/
def idCeiling (ext : Ext) (m6 : HBModel) : Nat :=
  ext.resetIdsLast m6 ((blockPartition ext m6.rooms).length + 1)

/-! ## Concrete fixtures

A minimal one-room, one-face model together with a benign instantiation of
the external library, used to evaluate the pipeline at concrete inputs.
The oracle rewrites the room/face identifiers to the integers 2 and 3
(`reset_ids_to_integers` starting at `len(blocks) + 1 = 2` and returning
3), as honeybee does. -/

def exPt (x y z : String) : Pt3 := ⟨x, y, z⟩

def exFace : Face :=
  { identifier := "fA", displayName := "Face A", ftype := .Wall, tilt := 90,
    area := "30.0", azimuth := "180.0", altitude := "0.0",
    gbxmlType := "ExteriorWall",
    boundary := [exPt "0" "0" "0", exPt "1" "0" "0", exPt "1" "0" "1",
      exPt "0" "0" "1"],
    holes := [], parentRings := some [[0, 1, 2, 3]], bc := .otherBC,
    apertures := [], doors := [], userData := none }

def exRoom : Room :=
  { identifier := "rA", displayName := "Room A", volume := "150.0",
    hgt := "3.0", vertices := [exPt "0" "0" "0"], faces := [exFace],
    isExtrusion := true, userData := none }

def exModel : HBModel :=
  { displayName := "Tiny House", units := "Meters", rooms := [exRoom],
    stories := ["S1"] }

def exExt : Ext :=
  { convertToMeters := id, removeDegenerate := some,
    shadeMeshesToShades := id, assignStories := id,
    resetRoomIds := fun r =>
      let fs := r.faces.map (fun f => { f with identifier := "3" })
      { r with identifier := "2", faces := fs },
    resetIdsLast := fun _ _ => 3,
    groupByStory := fun rs => ([rs], ["S1"]),
    groupByAdjacency := fun rs => [rs],
    joinAdjacentRooms := fun rs => rs,
    groupedHorizontalBoundary := fun _ => [⟨[exPt "0" "0" "0"], []⟩],
    centeredAdjacent := fun _ _ => true,
    cleanString := id }

def exDate : String := "2026-10-12"

def exRes := modelToDsbxmlElement exExt exModel exDate 1

/-- The document produced for the fixture model (error fallback never
taken). -/
def exDoc : XElem :=
  match exRes with
  | .ok (doc, _, _, _) => doc
  | .error _ => XElem.mk "dsbXML" [] none []

/-! ## Shared inversion lemmas -/

/-- On success, `modelToDsbxmlElement` hands the caller's model back
unchanged and leaves the counter at 1. -/
theorem modelToDsbxml_result (ext : Ext) (m : HBModel) (date : String)
    (c : Nat) (doc : XElem) (m' : HBModel) (c' : Nat) (logs : List String)
    (h : modelToDsbxmlElement ext m date c = .ok (doc, m', c', logs)) :
    m' = m ∧ c' = 1 := by
  unfold modelToDsbxmlElement at h
  cases hc : modelConvertCore ext m date with
  | error e => rw [hc] at h; exact Except.noConfusion h
  | ok v =>
    obtain ⟨root, k, logs0⟩ := v
    rw [hc] at h
    simp only [Except.ok.injEq, Prod.mk.injEq] at h
    exact ⟨h.2.1.symm, h.2.2.1.symm⟩

/-! ## Claim C4 -/

/-- C4: if degenerate-geometry removal at the fixed tolerance fails (on the
already unit-normalized duplicate), `model_to_dsbxml_element` raises a
fatal `ValueError` whose message names the caller's model's declared unit
system, and the whole result is that error — no partial document. -/
theorem degenerate_failure_fatal_error (ext : Ext) (m : HBModel)
    (date : String) (c : Nat)
    (h : ext.removeDegenerate (unitNormalized ext m) = none) :
    modelToDsbxmlElement ext m date c =
      .error ("Failed to remove degenerate Rooms.\nYour Model units system is: "
        ++ m.units ++ ". Is this correct?") := by
  simp [modelToDsbxmlElement, modelConvertCore, normalizeModel, h]

def exExtFail : Ext := { exExt with removeDegenerate := fun _ => none }

def exModelFeet : HBModel := { exModel with units := "Feet" }

theorem degenerate_failure_fatal_error_witness :
    (exExtFail.removeDegenerate (unitNormalized exExtFail exModelFeet) = none) ∧
    modelToDsbxmlElement exExtFail exModelFeet exDate 1 =
      .error "Failed to remove degenerate Rooms.\nYour Model units system is: Feet. Is this correct?" := by
  have h : exExtFail.removeDegenerate (unitNormalized exExtFail exModelFeet) =
      none := rfl
  exact ⟨h, degenerate_failure_fatal_error exExtFail exModelFeet exDate 1 h⟩

/-! ## Claim C5 -/

/-- C5: `model_to_dsbxml_element` never mutates the caller's model: the
model is duplicated at entry and all in-place edits apply to the
duplicate, so on success the caller's model object is exactly the model
that was passed in. -/
theorem conversion_preserves_caller_model (ext : Ext) (m : HBModel)
    (date : String) (c : Nat) (doc : XElem) (m' : HBModel) (c' : Nat)
    (logs : List String)
    (h : modelToDsbxmlElement ext m date c = .ok (doc, m', c', logs)) :
    m' = m :=
  (modelToDsbxml_result ext m date c doc m' c' logs h).1

theorem conversion_preserves_caller_model_witness :
    (modelToDsbxmlElement exExt exModel exDate 1 = .ok (exDoc, exModel, 1, [])) ∧
    exModel = exModel := by
  have h : modelToDsbxmlElement exExt exModel exDate 1 =
      .ok (exDoc, exModel, 1, []) := by rfl
  exact ⟨h,
    conversion_preserves_caller_model exExt exModel exDate 1 exDoc exModel 1 [] h⟩

/-! ## Claim C8 -/

/-- C8: at a fixed date, the conversion is a pure function of the model:
the result does not depend on the incoming handle-counter state at all
(the counter is reseeded before first use), and a second conversion of the
caller's returned model, starting from the counter state the first run
left behind, produces the structurally identical document. -/
theorem conversion_deterministic (ext : Ext) (m : HBModel) (date : String)
    (c1 c2 : Nat) :
    modelToDsbxmlElement ext m date c1 = modelToDsbxmlElement ext m date c2 ∧
    (∀ doc m' cE logs,
      modelToDsbxmlElement ext m date c1 = .ok (doc, m', cE, logs) →
      modelToDsbxmlElement ext m' date cE = .ok (doc, m', cE, logs)) := by
  refine ⟨rfl, ?_⟩
  intro doc m' cE logs h
  obtain ⟨hm, -⟩ := modelToDsbxml_result ext m date c1 doc m' cE logs h
  subst hm
  exact h

theorem conversion_deterministic_witness :
    modelToDsbxmlElement exExt exModel exDate 1 =
      modelToDsbxmlElement exExt exModel exDate 42 ∧
    modelToDsbxmlElement exExt exModel exDate 1 = .ok (exDoc, exModel, 1, []) := by
  have h : modelToDsbxmlElement exExt exModel exDate 1 =
      .ok (exDoc, exModel, 1, []) := by rfl
  exact ⟨(conversion_deterministic exExt exModel exDate 1 42).1,
    (conversion_deterministic exExt exModel exDate 1 1).2 exDoc exModel 1 [] h⟩

/-! ## Claim C2 -/

/-- A face with one hole, serialized into a zone body. -/
def exHoleFace : Face :=
  { identifier := "9", displayName := "Holey wall", ftype := .Wall,
    tilt := 90, area := "50.0", azimuth := "180.0", altitude := "0.0",
    gbxmlType := "ExteriorWall",
    boundary := [exPt "0" "0" "0", exPt "4" "0" "0", exPt "4" "0" "4",
      exPt "0" "0" "4"],
    holes := [[exPt "1" "0" "1", exPt "2" "0" "1", exPt "2" "0" "2"]],
    parentRings := some [[0, 1, 2, 3], [4, 5, 6]], bc := .otherBC,
    apertures := [], doors := [], userData := none }

/-- C2 (code bug): a face whose `face_indices` lists a hole ring never
produces the documented duplicate `'Hole'` Surface.  Writer.py line 146
builds `Face3D(hole)` from the tuple of *integer* vertex indices and line
147 forces `hole_geo.area`; one of the two raises inside the external
geometry library before line 148 creates the duplicate fragment, before
lines 149-150 allocate its handle, and before line 158 writes the
`HoleIndices` text.  The conversion aborts with the exception instead of
emitting anything.  (Even the fragment line 148 would have built passes
the parent's `face_id_attr`; the `'Hole'`-typed `hole_id_attr` of lines
144-145 is dead.) -/
theorem hole_surface_type_bug :
    exHoleFace.parentRings = some [[0, 1, 2, 3], [4, 5, 6]] ∧
    faceToDsbxmlElement exHoleFace (some ⟨"1", "2", []⟩) 5 1 =
      .error HOLE_FACE3D_ERROR :=
  ⟨rfl, rfl⟩

/-! ## Claim C7 -/

/-- The external library instantiated so that no fused face is
centered-coincident with any member face (as happens when the join fuses
coplanar faces into a new larger face). -/
def exExtNoMatch : Ext := { exExt with centeredAdjacent := fun _ _ => false }

/-- C7 (code bug): when a face of the block's fused volume matches no
member room's face, the matching loop leaves `'zone_handle'` unset in the
face's `user_data`, and the post-hoc adjacency patch at line 408 reads
`face.user_data['zone_handle']` unconditionally — so serialization of the
block fails with a `KeyError` instead of treating the face as new and
completing. -/
theorem unmatched_fused_face_keyerror :
    roomGroupToDsbxmlBlock exExtNoMatch [exRoom] 1 true none 5 1 =
      .error "KeyError: zone_handle" := by rfl

/-! ## Claim C6 -/

/-- C6: when the grouped horizontal boundary operation yields an empty
result for the (already serialized) block, the block writer does not
raise: it returns successfully, reports the failure in its log, and
leaves the block's `Perimeter` element without child geometry. -/
theorem empty_perimeter_recoverable (ext : Ext) (roomGroup : List Room)
    (blockHandle : Nat) (inBuilding : Bool) (blockName : Option String)
    (c : Nat) (angleTol : Rat) (out : BlockPhase1Out)
    (h1 : blockPhase1 ext roomGroup blockHandle c angleTol = .ok out)
    (h2 : ext.groupedHorizontalBoundary out.roomsUpd = []) :
    ∃ blk logs,
      roomGroupToDsbxmlBlock ext roomGroup blockHandle inBuilding blockName
        c angleTol = .ok (blk, out.c, logs) ∧
      blk.find? "Perimeter" = some (XElem.mk "Perimeter" [] none []) ∧
      ("Failed to calculate perimeter around block: " ++
        (match blockName with | some n => n | none => "None")) ∈ logs := by
  simp only [roomGroupToDsbxmlBlock, h1, blockPerimeter, h2]
  refine ⟨_, _, rfl, ?_, ?_⟩
  · simp [XElem.find?, XElem.tag, XElem.children, objectIds, List.find?]
  · simp

def exExtNoPerim : Ext :=
  { exExt with groupedHorizontalBoundary := fun _ => [] }

def exPhase1Res := blockPhase1 exExtNoPerim [exRoom] 1 5 1

def exPhase1Out : BlockPhase1Out :=
  match exPhase1Res with
  | .ok o => o
  | .error _ => ⟨[], [], exRoom, [], 0⟩

theorem empty_perimeter_recoverable_witness :
    (blockPhase1 exExtNoPerim [exRoom] 1 5 1 = .ok exPhase1Out) ∧
    (exExtNoPerim.groupedHorizontalBoundary exPhase1Out.roomsUpd = []) ∧
    ∃ blk logs,
      roomGroupToDsbxmlBlock exExtNoPerim [exRoom] 1 true none 5 1 =
        .ok (blk, exPhase1Out.c, logs) ∧
      blk.find? "Perimeter" = some (XElem.mk "Perimeter" [] none []) ∧
      ("Failed to calculate perimeter around block: None") ∈ logs := by
  have h1 : blockPhase1 exExtNoPerim [exRoom] 1 5 1 = .ok exPhase1Out := by rfl
  have h2 : exExtNoPerim.groupedHorizontalBoundary exPhase1Out.roomsUpd = [] :=
    rfl
  exact ⟨h1, h2,
    empty_perimeter_recoverable exExtNoPerim [exRoom] 1 true none 5 1
      exPhase1Out h1 h2⟩

/-! ## Claim C9 -/

def exAperture : SubFace :=
  { identifier := "11", displayName := "South window", isAperture := true,
    boundary := [exPt "0" "1" "1", exPt "0" "3" "1", exPt "0" "3" "2"],
    holes := [] }

/-- C9 counterexample: the identity record of an Opening serialized
standalone (no parent Surface element) carries `'0'` — not the sentinel
`'-1'` — in its surfaceIndex field (writer.py line 40 assigns
`surface_index = '0'` in the standalone branch). -/
theorem standalone_opening_surface_index_counterexample :
    (((subFaceToDsbxmlElement exAperture none).find? "Polygon").bind
      (fun p => p.find? "ObjectIDs")).bind
        (fun o => o.get? "surfaceIndex") = some "0" ∧
    ¬ (((subFaceToDsbxmlElement exAperture none).find? "Polygon").bind
      (fun p => p.find? "ObjectIDs")).bind
        (fun o => o.get? "surfaceIndex") = some "-1" := by
  decide

/-- C9 (amended): every ObjectIDs record emitted anywhere in a converted
document has exactly the six fields handle, buildingHandle,
buildingBlockHandle, zoneHandle, surfaceIndex, openingIndex, in order;
`_object_ids` defaults absent references to `'-1'` at its call sites —
except that the identity record written for an Opening serialized
standalone holds `'0'` in its surfaceIndex field (and `'0'` for the
buildingHandle), not `'-1'`. -/
theorem object_ids_six_fields_amended :
    (∀ (ext : Ext) (m : HBModel) (date : String) (doc : XElem) (k : Nat)
      (logs : List String),
      modelConvertCore ext m date = .ok (doc, k, logs) →
      ∀ ks ∈ objIdKeyLists doc, ks = objectIdKeys) ∧
    (∀ h b bl z s o : String,
      (objectIds h b bl z s o).attrs.map Prod.fst = objectIdKeys) ∧
    (∀ sf : SubFace,
      ((subFaceToDsbxmlElement sf none).find? "Polygon").bind
        (fun p => p.find? "ObjectIDs") =
        some (objectIds "-1" "0" "-1" "-1" "0" "-1")) := by
  refine ⟨?_, ?_, ?_⟩
  · intro ext m date doc k logs h
    exact modelConvertCore_allSix ext m date doc k logs h
  · intro h b bl z s o
    simp [objectIds, XElem.attrs, objectIdKeys]
  · intro sf
    simp [subFaceToDsbxmlElement, XElem.find?, XElem.children, XElem.tag,
      List.find?, objectIds]

theorem object_ids_six_fields_amended_witness :
    (modelConvertCore exExt exModel exDate = .ok (exDoc, 7, [])) ∧
    (∀ ks ∈ objIdKeyLists exDoc, ks = objectIdKeys) ∧
    (objectIds "1" "2" "3" "4" "5" "6").attrs.map Prod.fst = objectIdKeys ∧
    ((subFaceToDsbxmlElement exAperture none).find? "Polygon").bind
      (fun p => p.find? "ObjectIDs") =
      some (objectIds "-1" "0" "-1" "-1" "0" "-1") := by
  have h : modelConvertCore exExt exModel exDate = .ok (exDoc, 7, []) := by
    rfl
  exact ⟨h,
    object_ids_six_fields_amended.1 exExt exModel exDate exDoc 7 [] h,
    object_ids_six_fields_amended.2.1 "1" "2" "3" "4" "5" "6",
    object_ids_six_fields_amended.2.2 exAperture⟩

/-! ## Claim C10 -/

/-- C10: every successful call of `face_to_dsbxml_element` mutates its
input face: it stores the face's index within the `Surfaces` container
under the key `'dsb_face_i'` in `face.user_data` (creating the dict when
`user_data` was `None`); the stored value is exactly what the
`user_data['dsb_face_i']` subscript in `room_group_to_dsbxml_block`
later reads. -/
theorem face_writer_mutates_user_data (f : Face) (bh zh : String)
    (surfs : List XElem) (c : Nat) (angleTol : Rat) (main : XElem)
    (holes : List XElem) (f' : Face) (c' : Nat)
    (h : faceToDsbxmlElement f (some ⟨bh, zh, surfs⟩) c angleTol =
      .ok (main, holes, f', c')) :
    subscript f'.userData "dsb_face_i" =
      .ok (toString (surfs.filter (fun s => s.tag = "Surface")).length) ∧
    (f.userData = none →
      f'.userData = some [("dsb_face_i",
        toString (surfs.filter (fun s => s.tag = "Surface")).length)]) := by
  simp only [faceToDsbxmlElement] at h
  repeat' split at h
  all_goals try exact Except.noConfusion h
  all_goals
    simp only [Except.ok.injEq, Prod.mk.injEq] at h
  all_goals
    obtain ⟨-, -, hf, -⟩ := h
  all_goals subst hf
  all_goals simp_all [subscript, dictGet?, dictGet?_dictSet_self]

def exFaceCtx : BodyCtx := ⟨"1", "2", []⟩

def exFaceRes := faceToDsbxmlElement exFace (some exFaceCtx) 5 1

def exFaceMain : XElem :=
  match exFaceRes with
  | .ok (mn, _, _, _) => mn
  | .error _ => XElem.mk "Surface" [] none []

def exFaceUpd : Face :=
  match exFaceRes with
  | .ok (_, _, fU, _) => fU
  | .error _ => exFace

/-- The Site element of any assembled document carries `str(cF)` as its
handle. -/
theorem assembleDoc_siteHandle (mn date : String) (blks : List XElem)
    (k : Nat) :
    (((assembleDoc mn date blks k).find? "Site").bind
      (fun s => s.get? "handle")) = some (toString k) := by
  simp [assembleDoc, XElem.find?, XElem.set, XElem.get?, XElem.children,
    XElem.tag, dictSet, dictGet?]

/-- Any successful `modelConvertCore` result is an assembled skeleton whose
Site-handle slot holds the returned counter value. -/
theorem modelConvertCore_ok (ext : Ext) (m : HBModel) (date : String)
    (doc : XElem) (k : Nat) (logs : List String)
    (h : modelConvertCore ext m date = .ok (doc, k, logs)) :
    ∃ mn blks, doc = assembleDoc mn date blks k := by
  simp only [modelConvertCore] at h
  split at h
  · exact Except.noConfusion h
  · split at h
    · exact Except.noConfusion h
    · simp only [Except.ok.injEq, Prod.mk.injEq] at h
      obtain ⟨h1, h2, -⟩ := h
      subst h2
      exact ⟨_, _, h1.symm⟩

/-! ## Claim C3 -/

/-- C3: the handle allocator is the module-level counter initialized to 1;
every successful top-level conversion ends with the counter reset to 1
regardless of the counter state it started from (so in any sequence of
successful conversions from module load, each one both starts and ends at
1), and the Site element's `handle` attribute is set to the final
allocator value reached after all blocks were written (the value the
counter holds just before the reset). -/
theorem handle_counter_reset_and_site_handle :
    HANDLE_COUNTER_init = 1 ∧
    ∀ (ext : Ext) (m : HBModel) (date : String) (doc : XElem) (k : Nat)
      (logs : List String),
      modelConvertCore ext m date = .ok (doc, k, logs) →
      ((doc.find? "Site").bind (fun s => s.get? "handle")) =
        some (toString k) ∧
      ∀ c, modelToDsbxmlElement ext m date c = .ok (doc, m, 1, logs) := by
  refine ⟨rfl, ?_⟩
  intro ext m date doc k logs h
  constructor
  · obtain ⟨mn, blks, hdoc⟩ := modelConvertCore_ok ext m date doc k logs h
    rw [hdoc]
    exact assembleDoc_siteHandle mn date blks k
  · intro c
    unfold modelToDsbxmlElement
    rw [h]

theorem handle_counter_reset_and_site_handle_witness :
    (modelConvertCore exExt exModel exDate = .ok (exDoc, 7, [])) ∧
    ((exDoc.find? "Site").bind (fun s => s.get? "handle")) = some "7" ∧
    modelToDsbxmlElement exExt exModel exDate 1 = .ok (exDoc, exModel, 1, []) := by
  have h : modelConvertCore exExt exModel exDate = .ok (exDoc, 7, []) := by rfl
  have ht := handle_counter_reset_and_site_handle.2 exExt exModel exDate
    exDoc 7 [] h
  exact ⟨h, ht.1, ht.2 1⟩

theorem face_writer_mutates_user_data_witness :
    (faceToDsbxmlElement exFace (some exFaceCtx) 5 1 =
      .ok (exFaceMain, [], exFaceUpd, 5)) ∧
    subscript exFaceUpd.userData "dsb_face_i" = .ok "0" ∧
    exFaceUpd.userData = some [("dsb_face_i", "0")] := by
  have h : faceToDsbxmlElement exFace (some exFaceCtx) 5 1 =
      .ok (exFaceMain, [], exFaceUpd, 5) := by rfl
  have ht := face_writer_mutates_user_data exFace "1" "2" [] 5 1 exFaceMain
    [] exFaceUpd 5 h
  exact ⟨h, ht.1, ht.2 rfl⟩

/-! ## Claim C1 -/

/-- The normalized form of the fixture model. -/
def exM6 : HBModel :=
  match normalizeModel exExt exModel with
  | .ok m => m
  | .error _ => exModel

set_option maxHeartbeats 1000000 in
/-- C1 counterexample: converting the one-room fixture succeeds, yet the
document-wide list of non-sentinel ObjectIDs handle values (the
`InnerSurfaceBody` copies included, exactly as the claim demands) repeats
the member zone's room handle `'2'` and face handle `'3'`, because
writer.py lines 277-303 deep-copy each written Surface — ObjectIDs
included — into the `InnerSurfaceBody`.  Document-wide uniqueness
therefore fails. -/
theorem handle_uniqueness_counterexample :
    modelToDsbxmlElement exExt exModel exDate 1 =
      .ok (exDoc, exModel, 1, []) ∧
    docHandles exDoc = ["0", "1", "2", "3", "2", "3", "4", "5", "6"] ∧
    ¬ (docHandles exDoc).Nodup := by
  refine ⟨by rfl, by rfl, ?_⟩
  rw [show docHandles exDoc =
    ["0", "1", "2", "3", "2", "3", "4", "5", "6"] from rfl]
  decide

/-- C1 (amended): in the document produced by a successful conversion,
every non-sentinel ObjectIDs handle value *outside* the Zones'
`InnerSurfaceBody` subtrees is unique, provided the integer identifier
rewrite produced pairwise-distinct identifiers for the rooms, faces and
openings, all rendered from integers between 1 and the allocator floor
returned by `reset_ids_to_integers` (an opening repeats its identifier
once per geometry hole, so the pool hypothesis also requires at most one
hole per aperture or door). -/
theorem handle_uniqueness_amended (ext : Ext) (m m6 : HBModel)
    (date : String) (root : XElem) (k : Nat) (logs : List String)
    (h6 : normalizeModel ext m = .ok m6)
    (hconv : modelConvertCore ext m date = .ok (root, k, logs))
    (hN : (modelIdPool ext m6).Nodup)
    (hB : ∀ s ∈ modelIdPool ext m6,
      ∃ n, toString n = s ∧ 1 ≤ n ∧ n ≤ idCeiling ext m6)
    (hBL : (blockPartition ext m6.rooms).length ≤ idCeiling ext m6) :
    (mainHandles root).Nodup := by
  simp only [modelConvertCore, h6] at hconv
  split at hconv
  · exact Except.noConfusion hconv
  · rename_i blks cF logsW hwb
    simp only [Except.ok.injEq, Prod.mk.injEq] at hconv
    obtain ⟨h1, -, -⟩ := hconv
    subst h1
    have hwb' : writeBlocks ext 1 (resetGroups ext m6) 0
        (idCeiling ext m6 + 1) = .ok (blks, cF, logsW) := hwb
    have hB' : ∀ s ∈ blocksPool (resetGroups ext m6) 0,
        ∃ n, toString n = s ∧ n < idCeiling ext m6 + 1 := by
      intro s hs
      obtain ⟨n, hn, -, h2⟩ := hB s hs
      exact ⟨n, hn, by omega⟩
    have hlen : 0 + (resetGroups ext m6).length < idCeiling ext m6 + 1 := by
      have : (resetGroups ext m6).length =
          (blockPartition ext m6.rooms).length := by
        simp [resetGroups]
      omega
    obtain ⟨wHS, wLe⟩ := writeBlocks_HS ext 1 (resetGroups ext m6) 0
      (idCeiling ext m6 + 1) blks cF logsW hwb' hN hB' hlen
    rw [assembleDoc_mainHandles]
    refine List.nodup_cons.2 ⟨?_, wHS.1⟩
    intro hmem
    have h00 : toString 0 = "0" := rfl
    rcases wHS.2 _ hmem with hp | ⟨n, hn, h2, -⟩
    · obtain ⟨n, hn, hge, -⟩ := hB _ hp
      have := natToString_injective n 0 (hn.trans h00.symm)
      omega
    · have := natToString_injective n 0 (hn.trans h00.symm)
      omega

set_option maxHeartbeats 1000000 in
theorem handle_uniqueness_amended_witness :
    (mainHandles exDoc).Nodup := by
  refine handle_uniqueness_amended exExt exModel exM6 exDate exDoc 7 []
    (by rfl) (by rfl) (by decide) ?_ (by decide)
  intro s hs
  rw [show modelIdPool exExt exM6 = ["1", "2", "3"] from rfl] at hs
  rw [show idCeiling exExt exM6 = 3 from rfl]
  rcases List.mem_cons.1 hs with h | h
  · exact ⟨1, by rw [h]; decide, by omega, by omega⟩
  rcases List.mem_cons.1 h with h | h
  · exact ⟨2, by rw [h]; decide, by omega, by omega⟩
  rcases List.mem_cons.1 h with h | h
  · exact ⟨3, by rw [h]; decide, by omega, by omega⟩
  · exact absurd h (List.not_mem_nil s)

end DsbXml
